import Mathlib

set_option maxHeartbeats 1000000
set_option maxRecDepth 4000

/-!
Shallow embedding of the extraction engine of `extract_games.py`
(repository Aspenini/eol-console-games) and proofs about it.

Python strings are modelled as `List Char` (`Str`). HTML cells are modelled
as attribute records holding a flat list of content nodes (text, span with
optional `style` and `data-sort-value` attributes, hyperlink, italic).
`datetime.strptime` is modelled directive-by-directive following CPython's
`_strptime` regexes for the formats the source uses, and
`strftime('%Y-%m-%d')` as zero-padded 4-2-2 rendering.
-/

abbrev Str := List Char

def str (s : String) : Str := s.toList

def isWs (c : Char) : Bool := c.isWhitespace

/-- Python `str.strip()`: drop whitespace at both ends. -/
def pyStrip (l : Str) : Str :=
  ((l.dropWhile isWs).reverse.dropWhile isWs).reverse

/-- Python `str.lower()` (ASCII is all the source needs). -/
def pyLower (l : Str) : Str := l.map Char.toLower

def pySplitAux : Str → Str → List Str
  | [], cur => if cur.isEmpty then [] else [cur.reverse]
  | c :: cs, cur =>
    if isWs c then
      if cur.isEmpty then pySplitAux cs [] else cur.reverse :: pySplitAux cs []
    else pySplitAux cs (c :: cur)

/-- Python `str.split()` with no argument: split on whitespace runs. -/
def pySplit (l : Str) : List Str := pySplitAux l []

/-- Python `' '.join(parts)`. -/
def joinSpace (parts : List Str) : Str := List.intercalate [' '] parts

/-- Whether `l` begins with `p`. -/
def startsWith : Str → Str → Bool
  | _, [] => true
  | [], _ :: _ => false
  | c :: cs, p :: ps => c == p && startsWith cs ps

/-- Python `pat in hay` substring test. -/
def hasSub (hay pat : Str) : Bool := hay.tails.any fun t => startsWith t pat

/-- Python `str.isdigit()`: nonempty and all digits. -/
def isdigitAll (l : Str) : Bool := !l.isEmpty && l.all Char.isDigit

/-- Numeric value of a digit string. -/
def strToNat (l : Str) : Nat := l.foldl (fun a c => a * 10 + (c.toNat - 48)) 0

/-- Python `datetime.date` value produced by `strptime`. -/
structure PyDate where
  y : Nat
  m : Nat
  d : Nat
deriving DecidableEq, Repr

def isLeapYear (y : Nat) : Bool := (y % 4 == 0 && y % 100 != 0) || (y % 400 == 0)

def daysInMonth (y m : Nat) : Nat :=
  if m == 2 then (if isLeapYear y then 29 else 28)
  else if m == 4 || m == 6 || m == 9 || m == 11 then 30
  else 31

/-- Validity check performed by the `datetime` constructor (MINYEAR 1, MAXYEAR 9999). -/
def validDate (y m d : Nat) : Bool :=
  decide (1 ≤ y) && decide (y ≤ 9999) && decide (1 ≤ m) && decide (m ≤ 12) &&
  decide (1 ≤ d) && decide (d ≤ daysInMonth y m)

/-- The `datetime(y, m, d)` constructor: `ValueError` becomes `none`. -/
def mkDatetime (y m d : Nat) : Option PyDate :=
  if validDate y m d then some ⟨y, m, d⟩ else none

/-- Lexicographic `datetime` comparison, strict. -/
def dateLt (a b : PyDate) : Bool :=
  a.y < b.y || (a.y == b.y && (a.m < b.m || (a.m == b.m && a.d < b.d)))

/-- Lexicographic `datetime` comparison, non-strict. -/
def dateLe (a b : PyDate) : Bool :=
  a.y < b.y || (a.y == b.y && (a.m < b.m || (a.m == b.m && a.d ≤ b.d)))

/-- Exactly `k` digits from the front (CPython `%Y` uses `\d\d\d\d`). -/
def matchDigits (k : Nat) (l : Str) : Option (Nat × Str) :=
  let pre := l.take k
  if pre.length == k && pre.all Char.isDigit then some (strToNat pre, l.drop k) else none

/-- CPython `%m` regex `1[0-2]|0[1-9]|[1-9]`, ordered alternation. -/
def matchMonthNum (l : Str) : Option (Nat × Str) :=
  match l with
  | '1' :: c :: rest =>
    if '0' ≤ c && c ≤ '2' then some (strToNat ['1', c], rest)
    else some (1, c :: rest)
  | '0' :: c :: rest =>
    if '1' ≤ c && c ≤ '9' then some (strToNat ['0', c], rest) else none
  | c :: rest => if '1' ≤ c && c ≤ '9' then some (c.toNat - 48, rest) else none
  | [] => none

/-- CPython `%d` regex `3[01]|[12]\d|0[1-9]|[1-9]`, ordered alternation. -/
def matchDayNum (l : Str) : Option (Nat × Str) :=
  match l with
  | '3' :: c :: rest =>
    if c == '0' || c == '1' then some (strToNat ['3', c], rest) else some (3, c :: rest)
  | c1 :: c2 :: rest =>
    if (c1 == '1' || c1 == '2') && c2.isDigit then some (strToNat [c1, c2], rest)
    else if c1 == '0' && ('1' ≤ c2 && c2 ≤ '9') then some (c2.toNat - 48, rest)
    else if '1' ≤ c1 && c1 ≤ '9' then some (c1.toNat - 48, c2 :: rest)
    else none
  | [c] => if '1' ≤ c && c ≤ '9' then some (c.toNat - 48, []) else none
  | [] => none

/-- Whitespace in a strptime format string matches `\s+`. -/
def matchWsPlus (l : Str) : Option Str :=
  match l with
  | c :: rest => if isWs c then some ((c :: rest).dropWhile isWs) else none
  | [] => none

def matchLit (ch : Char) (l : Str) : Option Str :=
  match l with
  | c :: rest => if c == ch then some rest else none
  | [] => none

def monthNames : List (Str × Nat) :=
  [(str "january", 1), (str "february", 2), (str "march", 3), (str "april", 4),
   (str "may", 5), (str "june", 6), (str "july", 7), (str "august", 8),
   (str "september", 9), (str "october", 10), (str "november", 11), (str "december", 12)]

/-- CPython `%B`: full month names, case-insensitive. -/
def matchMonthName (l : Str) : Option (Nat × Str) :=
  monthNames.findSome? fun p =>
    if startsWith (pyLower l) p.1 then some (p.2, l.drop p.1.length) else none

/-- strptime with format `'%Y%m%d'` (requires full consumption). -/
def strptimeY8 (l : Str) : Option PyDate :=
  match matchDigits 4 l with
  | none => none
  | some (y, r1) =>
    match matchMonthNum r1 with
    | none => none
    | some (m, r2) =>
      match matchDayNum r2 with
      | none => none
      | some (d, r3) => if r3.isEmpty then mkDatetime y m d else none

/-- strptime with format `'%Y-%m-%d'`. -/
def strptimeYmdDash (l : Str) : Option PyDate :=
  match matchDigits 4 l with
  | none => none
  | some (y, r1) =>
    match matchLit '-' r1 with
    | none => none
    | some r2 =>
      match matchMonthNum r2 with
      | none => none
      | some (m, r3) =>
        match matchLit '-' r3 with
        | none => none
        | some r4 =>
          match matchDayNum r4 with
          | none => none
          | some (d, r5) => if r5.isEmpty then mkDatetime y m d else none

/-- strptime with format `'%Y-%m'` (day defaults to 1). -/
def strptimeYm (l : Str) : Option PyDate :=
  match matchDigits 4 l with
  | none => none
  | some (y, r1) =>
    match matchLit '-' r1 with
    | none => none
    | some r2 =>
      match matchMonthNum r2 with
      | none => none
      | some (m, r3) => if r3.isEmpty then mkDatetime y m 1 else none

/-- strptime with format `'%B %d, %Y'`. -/
def strptimeBdCommaY (l : Str) : Option PyDate :=
  match matchMonthName l with
  | none => none
  | some (m, r1) =>
    match matchWsPlus r1 with
    | none => none
    | some r2 =>
      match matchDayNum r2 with
      | none => none
      | some (d, r3) =>
        match matchLit ',' r3 with
        | none => none
        | some r4 =>
          match matchWsPlus r4 with
          | none => none
          | some r5 =>
            match matchDigits 4 r5 with
            | none => none
            | some (y, r6) => if r6.isEmpty then mkDatetime y m d else none

/-- strptime with format `'%B %d %Y'`. -/
def strptimeBdY (l : Str) : Option PyDate :=
  match matchMonthName l with
  | none => none
  | some (m, r1) =>
    match matchWsPlus r1 with
    | none => none
    | some r2 =>
      match matchDayNum r2 with
      | none => none
      | some (d, r3) =>
        match matchWsPlus r3 with
        | none => none
        | some r4 =>
          match matchDigits 4 r4 with
          | none => none
          | some (y, r5) => if r5.isEmpty then mkDatetime y m d else none

/-- strptime with format `'%m/%d/%Y'`. -/
def strptimeMdY (l : Str) : Option PyDate :=
  match matchMonthNum l with
  | none => none
  | some (m, r1) =>
    match matchLit '/' r1 with
    | none => none
    | some r2 =>
      match matchDayNum r2 with
      | none => none
      | some (d, r3) =>
        match matchLit '/' r3 with
        | none => none
        | some r4 =>
          match matchDigits 4 r4 with
          | none => none
          | some (y, r5) => if r5.isEmpty then mkDatetime y m d else none

/-- strptime with format `'%B %Y'` (day defaults to 1). -/
def strptimeBY (l : Str) : Option PyDate :=
  match matchMonthName l with
  | none => none
  | some (m, r1) =>
    match matchWsPlus r1 with
    | none => none
    | some r2 =>
      match matchDigits 4 r2 with
      | none => none
      | some (y, r3) => if r3.isEmpty then mkDatetime y m 1 else none

/-- Zero-padded 4-digit rendering (`%Y` for datetime-valid years). -/
def pad4 (n : Nat) : Str :=
  [Nat.digitChar (n / 1000 % 10), Nat.digitChar (n / 100 % 10),
   Nat.digitChar (n / 10 % 10), Nat.digitChar (n % 10)]

/-- Zero-padded 2-digit rendering (`%m`, `%d`). -/
def pad2 (n : Nat) : Str :=
  [Nat.digitChar (n / 10 % 10), Nat.digitChar (n % 10)]

/-- Model of `dt.strftime('%Y-%m-%d')`. -/
def formatDate (dt : PyDate) : Str :=
  pad4 dt.y ++ '-' :: pad2 dt.m ++ '-' :: pad2 dt.d

/-!
HTML cell model. A cell's children are flattened to a list of nodes; spans
carry their `style` and `data-sort-value` attributes.
-/

inductive Node where
  | txt (s : Str)
  | span (style : Option Str) (sortValue : Option Str) (inner : Str)
  | link (s : Str)
  | italic (s : Str)
deriving DecidableEq, Repr

def Node.textOf : Node → Str
  | .txt s => s
  | .span _ _ s => s
  | .link s => s
  | .italic s => s

structure Cell where
  isTh : Bool := false
  scope : Option Str := none
  dataSortValue : Option Str := none
  colspan : Nat := 1
  rowspan : Nat := 1
  content : List Node := []
deriving DecidableEq, Repr

def dcell : Cell := {}

/-- BeautifulSoup `get_text()`: concatenation of all contained strings. -/
def getText (ns : List Node) : Str := ns.foldr (fun n acc => n.textOf ++ acc) []

/-- BeautifulSoup `get_text(strip=True)`: each string stripped, then joined. -/
def getTextStrip (ns : List Node) : Str := ns.foldr (fun n acc => pyStrip n.textOf ++ acc) []

/-- Removal of bracketed numeric citation markers, re.sub `\[\d+\]`. -/
def removeCitAux : Nat → Str → Str
  | 0, l => l
  | _ + 1, [] => []
  | fuel + 1, '[' :: rest =>
    let ds := rest.takeWhile Char.isDigit
    match rest.drop ds.length with
    | ']' :: rest2 =>
      if ds.isEmpty then '[' :: removeCitAux fuel rest
      else removeCitAux fuel rest2
    | _ => '[' :: removeCitAux fuel rest
  | fuel + 1, c :: rest => c :: removeCitAux fuel rest

def removeCit (l : Str) : Str := removeCitAux l.length l

/-- Removal of footnote markers, re.sub `\(c\)|\(d\)|\(e\)|\(f\)`. -/
def removeFoot : Str → Str
  | '(' :: c :: ')' :: rest =>
    if c == 'c' || c == 'd' || c == 'e' || c == 'f' then removeFoot rest
    else '(' :: removeFoot (c :: ')' :: rest)
  | c :: rest => c :: removeFoot rest
  | [] => []

/-- Model of `clean_text`: collapse whitespace, drop citation and footnote
markers, strip. -/
def clean_text (t : Str) : Str :=
  pyStrip (removeFoot (removeCit (joinSpace (pySplit t))))

/-- Matching of the compiled regex `display\s*:\s*none` inside a style string. -/
def styleHasDisplayNone (s : Str) : Bool :=
  s.tails.any fun t =>
    startsWith t (str "display") &&
      (match (t.drop 7).dropWhile isWs with
       | ':' :: r => startsWith (r.dropWhile isWs) (str "none")
       | _ => false)

/-- Decomposition of all `span` elements whose style matches `display:none`. -/
def removeHiddenSpans (ns : List Node) : List Node :=
  ns.filter fun n =>
    match n with
    | .span (some st) _ _ => !styleHasDisplayNone st
    | _ => true

/-- BeautifulSoup `cell.find('span', data-sort-value present)`. -/
def findSpanSortValue (ns : List Node) : Option Str :=
  ns.findSome? fun n =>
    match n with
    | .span _ (some sv) _ => some sv
    | _ => none

/-- Shape test of `re.match(r'\d{4}-\d{2}-\d{2}', s)`. -/
def rematchYmdDash (l : Str) : Bool :=
  match l with
  | a :: b :: c :: d :: '-' :: e :: f :: '-' :: g :: h :: _ =>
    [a, b, c, d, e, f, g, h].all Char.isDigit
  | _ => false

/-- Cell-level sort-value branch of `parse_date_cell` (after strip, nonempty):
zero-strip, try `YYYYMMDD`, then `YYYY-MM-DD`. -/
def trySortParse (sv0 : Str) : Option Str :=
  let sv := sv0.dropWhile (· == '0')
  let b1 : Option Str :=
    if decide (8 ≤ sv.length) && isdigitAll sv then (strptimeY8 (sv.take 8)).map formatDate
    else none
  match b1 with
  | some r => some r
  | none =>
    if rematchYmdDash sv then (strptimeYmdDash (sv.take 10)).map formatDate else none

/-- Span-level sort-value branch (after strip, nonempty): zero-strip, try
`YYYYMMDD` on the first eight characters only. -/
def trySpanSortParse (sv0 : Str) : Option Str :=
  let sv := sv0.dropWhile (· == '0')
  if decide (8 ≤ sv.length) && isdigitAll (sv.take 8) then (strptimeY8 (sv.take 8)).map formatDate
  else none

/-- Word characters for the regex class `\w`. -/
def isWordCh (c : Char) : Bool := c.isAlphanum || c == '_'

/-- Regex `\d{1,2}` followed by a character accepted by `nextOk` (greedy with
the one-step backtracking the engine performs before a required next char). -/
def matchD12 (nextOk : Char → Bool) (l : Str) : Option (Str × Str) :=
  match l with
  | d1 :: d2 :: rest =>
    if d1.isDigit && d2.isDigit && (match rest with | c :: _ => nextOk c | [] => false) then
      some ([d1, d2], rest)
    else if d1.isDigit && nextOk d2 then some ([d1], d2 :: rest)
    else none
  | _ => none

/-- Match of `(\w+)\s+(\d{1,2}),\s+(\d{4})` at the start of `l`; returns group 0. -/
def matchP1 (l : Str) : Option Str :=
  let w := l.takeWhile isWordCh
  if w.isEmpty then none else
  let r1 := l.drop w.length
  let s1 := r1.takeWhile isWs
  if s1.isEmpty then none else
  let r2 := r1.drop s1.length
  match matchD12 (· == ',') r2 with
  | none => none
  | some (ds, r3) =>
    match r3 with
    | ',' :: r4 =>
      let s2 := r4.takeWhile isWs
      if s2.isEmpty then none else
      let r5 := r4.drop s2.length
      let yd := r5.take 4
      if yd.length == 4 && yd.all Char.isDigit then some (w ++ s1 ++ ds ++ ',' :: s2 ++ yd)
      else none
    | _ => none

/-- Match of `(\w+)\s+(\d{1,2})\s+(\d{4})` at the start of `l`. -/
def matchP2 (l : Str) : Option Str :=
  let w := l.takeWhile isWordCh
  if w.isEmpty then none else
  let r1 := l.drop w.length
  let s1 := r1.takeWhile isWs
  if s1.isEmpty then none else
  let r2 := r1.drop s1.length
  match matchD12 isWs r2 with
  | none => none
  | some (ds, r3) =>
    let s2 := r3.takeWhile isWs
    if s2.isEmpty then none else
    let r4 := r3.drop s2.length
    let yd := r4.take 4
    if yd.length == 4 && yd.all Char.isDigit then some (w ++ s1 ++ ds ++ s2 ++ yd)
    else none

/-- Match of `(\d{1,2})/(\d{1,2})/(\d{4})` at the start of `l`. -/
def matchP3 (l : Str) : Option Str :=
  match matchD12 (· == '/') l with
  | none => none
  | some (ds1, r1) =>
    match r1 with
    | '/' :: r2 =>
      match matchD12 (· == '/') r2 with
      | none => none
      | some (ds2, r3) =>
        match r3 with
        | '/' :: r4 =>
          let yd := r4.take 4
          if yd.length == 4 && yd.all Char.isDigit then some (ds1 ++ '/' :: ds2 ++ '/' :: yd)
          else none
        | _ => none
    | _ => none

/-- Match of `(\d{4})-(\d{2})-(\d{2})` at the start of `l`. -/
def matchP4 (l : Str) : Option Str :=
  if rematchYmdDash l then some (l.take 10) else none

/-- Match of `(\d{4})(\d{2})(\d{2})` at the start of `l`. -/
def matchP5 (l : Str) : Option Str :=
  let d := l.take 8
  if d.length == 8 && d.all Char.isDigit then some d else none

/-- Match of `(\w+)\s+(\d{4})` at the start of `l`. -/
def matchP6 (l : Str) : Option Str :=
  let w := l.takeWhile isWordCh
  if w.isEmpty then none else
  let r1 := l.drop w.length
  let s1 := r1.takeWhile isWs
  if s1.isEmpty then none else
  let r2 := r1.drop s1.length
  let yd := r2.take 4
  if yd.length == 4 && yd.all Char.isDigit then some (w ++ s1 ++ yd) else none

/-- re.search: leftmost position where the matcher succeeds. -/
def searchWith (m : Str → Option Str) (l : Str) : Option Str :=
  l.tails.findSome? m

/-- One `(pattern, format)` entry of the date-pattern loop: a failed strptime
after a successful search falls through to the next pattern. -/
def tryPat (search : Str → Option Str) (parse : Str → Option PyDate) (t : Str) : Option Str :=
  match search t with
  | none => none
  | some g =>
    match parse g with
    | none => none
    | some dt => some (formatDate dt)

/-- Date-pattern loop of `parse_date_cell`, in source order. -/
def tryPatterns (t : Str) : Option Str :=
  match tryPat (searchWith matchP1) strptimeBdCommaY t with
  | some r => some r
  | none =>
    match tryPat (searchWith matchP2) strptimeBdY t with
    | some r => some r
    | none =>
      match tryPat (searchWith matchP3) strptimeMdY t with
      | some r => some r
      | none =>
        match tryPat (searchWith matchP4) strptimeYmdDash t with
        | some r => some r
        | none =>
          match tryPat (searchWith matchP5) strptimeY8 t with
          | some r => some r
          | none => tryPat (searchWith matchP6) strptimeBY t

/-- Stage 1 of `parse_date_cell`: the cell's own `data-sort-value`. -/
def attrStage (c : Cell) : Option Str :=
  match c.dataSortValue with
  | none => none
  | some sv =>
    let s := pyStrip sv
    if s.isEmpty then none else trySortParse s

/-- Stage 2 of `parse_date_cell`: first remaining span carrying `data-sort-value`. -/
def spanStage (ns : List Node) : Option Str :=
  match findSpanSortValue ns with
  | none => none
  | some sv =>
    let s := pyStrip sv
    if s.isEmpty then none else trySpanSortParse s

def sentinelList : List Str :=
  [str "unreleased", str "tba", str "tbd", str "—", str "—", str "n/a", str "na"]

/-- Stage 3 of `parse_date_cell`: visible text of the remaining nodes. -/
def textStage (ns : List Node) : Str :=
  let text := clean_text (getText ns)
  if text.isEmpty || sentinelList.contains (pyLower text) then [] else
  let t := pyStrip (text.takeWhile (· != '\n'))
  (tryPatterns t).getD []

/-- Model of `parse_date_cell`: sort-value attribute, then (after decomposing
`display:none` spans) a span sort value, then visible text. -/
def parse_date_cell (c : Cell) : Str :=
  match attrStage c with
  | some r => r
  | none =>
    let ns := removeHiddenSpans c.content
    match spanStage ns with
    | some r => r
    | none => textStage ns

/-!
Table structure analysis (`analyze_table_structure`).
-/

abbrev Row := List Cell

structure ColStructure where
  title_col : Option Nat := none
  developer_col : Option Nat := none
  publisher_col : Option Nat := none
  first_released_col : Option Nat := none
  jp_col : Option Nat := none
  na_col : Option Nat := none
  pal_col : Option Nat := none
  europe_col : Option Nat := none
  australasia_col : Option Nat := none
  brazil_col : Option Nat := none
  br_col : Option Nat := none
  uses_row_headers : Bool := false
  has_region_header_row : Bool := false
deriving DecidableEq, Repr

/-- A cell's `get_text(strip=True).lower()`. -/
def cellTextLower (c : Cell) : Str := pyLower (getTextStrip c.content)

def regionKw : List Str :=
  [str "japan", str "jp", str "north america", str "na", str "europe", str "eu",
   str "pal", str "australasia", str "australia", str "brazil", str "br"]

def headerKwAny (t : Str) : Bool :=
  [str "title", str "developer", str "publisher", str "release"].any (hasSub t)

/-- Detection of `uses_row_headers`: some later row whose first cell is a
`th` with `scope="row"`. -/
def analyzeUrh (rows : List Row) : Bool :=
  (rows.drop 1).any fun r =>
    match r with
    | [] => false
    | c :: _ => c.isTh && c.scope == some (str "row")

/-- Detection of `has_region_header_row`: first cell of row 1 contains a
region keyword. -/
def analyzeHrr (rows : List Row) : Bool :=
  match rows.get? 1 with
  | some (c :: _) => regionKw.any (hasSub (pyLower (getTextStrip c.content)))
  | _ => false

/-- Header-row selection: scan at most the first three rows (only row 0 when a
region header row exists) for rows containing a header keyword; fall back to
row 0. -/
def headerRowsOf (rows : List Row) (hrr : Bool) : List Row :=
  let stop := if hrr then 1 else rows.length
  let picked := (List.range (min stop 3)).filterMap fun i =>
    match rows.get? i with
    | none => none
    | some r =>
      if r.isEmpty then none
      else if headerKwAny (joinSpace (r.map cellTextLower)) then some r
      else none
  if picked.isEmpty then [rows.headD []] else picked

/-- Flattening of header cells with colspan expansion, except that a
release-date cell is not expanded when a region header row exists. -/
def flattenHeaders (hrr : Bool) (hrows : List Row) : List Str :=
  (hrows.map fun r =>
    (r.map fun c =>
      let text := cellTextLower c
      let cols := if hrr && hasSub text (str "release") && hasSub text (str "date") then 1
                  else c.colspan
      List.replicate cols text).flatten).flatten

/-- Title assignment of the header-mapping loop. -/
def updTitle (idx : Nat) (hl : Str) (st : ColStructure) : ColStructure :=
  if st.title_col.isNone && [str "title", str "game", str "name"].any (hasSub hl) then
    { st with title_col := some idx } else st

def updDeveloper (idx : Nat) (hl : Str) (st : ColStructure) : ColStructure :=
  if st.developer_col.isNone && hasSub hl (str "developer") then
    { st with developer_col := some idx } else st

def updPublisher (idx : Nat) (hl : Str) (st : ColStructure) : ColStructure :=
  if st.publisher_col.isNone && hasSub hl (str "publisher") then
    { st with publisher_col := some idx } else st

def updFirstReleased (idx : Nat) (hl : Str) (st : ColStructure) : ColStructure :=
  if st.first_released_col.isNone &&
      ([str "first released", str "release date", str "released", str "first release"].any
        (hasSub hl)) && !hasSub hl (str "japan") then
    { st with first_released_col := some idx } else st

def updJp (idx : Nat) (hl : Str) (st : ColStructure) : ColStructure :=
  if (hasSub hl (str "japan") || [str "jp", str "j"].contains (pyStrip hl)) &&
      st.jp_col.isNone then { st with jp_col := some idx } else st

def updNa (idx : Nat) (hl : Str) (st : ColStructure) : ColStructure :=
  if (hasSub hl (str "north america") || [str "na", str "north"].contains (pyStrip hl)) &&
      st.na_col.isNone then { st with na_col := some idx } else st

def updPal (idx : Nat) (hl : Str) (st : ColStructure) : ColStructure :=
  if (hasSub hl (str "pal") && !hasSub hl (str "europe")) && st.pal_col.isNone then
    { st with pal_col := some idx } else st

def updEurope (idx : Nat) (hl : Str) (st : ColStructure) : ColStructure :=
  if (hasSub hl (str "europe") && !hasSub hl (str "/pal")) && st.europe_col.isNone then
    { st with europe_col := some idx } else st

def updAustralasia (idx : Nat) (hl : Str) (st : ColStructure) : ColStructure :=
  if (hasSub hl (str "australasia") ||
      (hasSub hl (str "australia") && !hasSub hl (str "australasia"))) &&
      st.australasia_col.isNone then { st with australasia_col := some idx } else st

def updBrazil (idx : Nat) (hl : Str) (st : ColStructure) : ColStructure :=
  if (hasSub hl (str "brazil") || pyStrip hl == str "br") && st.brazil_col.isNone then
    { st with brazil_col := some idx } else st

def updBr (idx : Nat) (hl : Str) (st : ColStructure) : ColStructure :=
  if (hasSub hl (str "brazil") || pyStrip hl == str "br") && st.br_col.isNone then
    { st with br_col := some idx } else st

/-- One step of the header-to-field mapping loop. -/
def applyHeader (st : ColStructure) (idx : Nat) (h : Str) : ColStructure :=
  let hl := pyLower (pyStrip h)
  let st := updFirstReleased idx hl (updPublisher idx hl (updDeveloper idx hl
    (updTitle idx hl st)))
  if st.has_region_header_row then st else
  updBr idx hl (updBrazil idx hl (updAustralasia idx hl (updEurope idx hl
    (updPal idx hl (updNa idx hl (updJp idx hl st))))))

def mapHeadersLoop : ColStructure → Nat → List Str → ColStructure
  | st, _, [] => st
  | st, idx, h :: rest => mapHeadersLoop (applyHeader st idx h) (idx + 1) rest

/-- Count of the header-row columns that appear in data rows before the
expanded release-date block: a row-spanning cell counts one, the release-date
cell stops the count, any other cell counts its colspan. -/
def columnsInDataRows : List Cell → Nat
  | [] => 0
  | c :: cs =>
    if 2 ≤ c.rowspan then 1 + columnsInDataRows cs
    else if hasSub (cellTextLower c) (str "release") && hasSub (cellTextLower c) (str "date") then 0
    else c.colspan + columnsInDataRows cs

/-- A region-row cell's text key: `get_text(strip=True).lower().strip()`. -/
def cellRegionKey (c : Cell) : Str := pyStrip (pyLower (getTextStrip c.content))

/-- Outer condition of the region-row mapping loop. -/
def outerRegion (t : Str) : Bool :=
  !t.isEmpty &&
    ([str "jp", str "j", str "na", str "pal", str "europe", str "eu", str "brazil",
      str "br"].contains t ||
     [str "japan", str "north america", str "australasia", str "australia"].any (hasSub t))

def innerJp (t : Str) : Bool := hasSub t (str "japan") || t == str "jp" || t == str "j"
def innerNa (t : Str) : Bool := hasSub t (str "north america") || t == str "na"
def innerPal (t : Str) : Bool := hasSub t (str "pal")
def innerEurope (t : Str) : Bool := hasSub t (str "europe") || t == str "eu"
def innerAustralasia (t : Str) : Bool := hasSub t (str "australasia") || hasSub t (str "australia")
def innerBrazil (t : Str) : Bool := hasSub t (str "brazil") || t == str "br"

/-- Field assignments performed for one matching region-row cell. -/
def assignRegion (st : ColStructure) (t : Str) (actual : Nat) : ColStructure :=
  let st := if innerJp t then { st with jp_col := some actual } else st
  let st := if innerNa t then { st with na_col := some actual } else st
  let st := if innerPal t then { st with pal_col := some actual } else st
  let st := if innerEurope t then { st with europe_col := some actual } else st
  let st := if innerAustralasia t then { st with australasia_col := some actual } else st
  if innerBrazil t then { st with brazil_col := some actual, br_col := some actual } else st

/-- The region-row mapping loop: the first outer-matching cell fixes the
start index; each matching cell is mapped to
`columns-in-data-rows + (index - start)`. -/
def regionLoop (cid : Nat) : ColStructure → Nat → Option Nat → List Cell → ColStructure
  | st, _, _, [] => st
  | st, idx, rsi, c :: cs =>
    if outerRegion (cellRegionKey c) then
      regionLoop cid
        (assignRegion st (cellRegionKey c) (cid + (idx - rsi.getD idx)))
        (idx + 1) (some (rsi.getD idx)) cs
    else regionLoop cid st (idx + 1) rsi cs

/-- The header-mapping phase of `analyze_table_structure`. -/
def analyzeHeadersMapped (rows : List Row) : ColStructure :=
  mapHeadersLoop
    { uses_row_headers := analyzeUrh rows, has_region_header_row := analyzeHrr rows } 0
    (flattenHeaders (analyzeHrr rows) (headerRowsOf rows (analyzeHrr rows)))

/-- Header mapping followed by the region-row special handling. -/
def analyzeStage2 (rows : List Row) : ColStructure :=
  if analyzeHrr rows then
    match rows with
    | r0 :: r1 :: _ => regionLoop (columnsInDataRows r0) (analyzeHeadersMapped rows) 0 none r1
    | _ => analyzeHeadersMapped rows
  else analyzeHeadersMapped rows

/-- Model of `analyze_table_structure`. -/
def analyze_table_structure (rows : List Row) : ColStructure :=
  if rows.length < 2 then {} else
  if (analyzeStage2 rows).uses_row_headers then
    { analyzeStage2 rows with title_col := some 0 }
  else analyzeStage2 rows

def hcell (s : String) : Cell := { isTh := true, content := [.txt (str s)] }

/-- Header row of the region-header-row example table: `Title | Developer |
Publisher | Release date (colspan 3)`. -/
def exRow0 : Row :=
  [hcell "Title", hcell "Developer", hcell "Publisher",
   { hcell "Release date" with colspan := 3 }]

/-- Region row of the example table: `JP | NA | PAL`. -/
def exRow1 : Row := [hcell "JP", hcell "NA", hcell "PAL"]

/-- Data row of the example table. -/
def exRow2 : Row :=
  [{ content := [.link (str "Some Game")] }, { content := [.txt (str "Dev")] },
   { content := [.txt (str "Pub")] }, { content := [.txt (str "March 1996")] },
   { content := [.txt (str "August 1, 1999")] }, { content := [.txt (str "TBA")] }]

/-- The region-header-row example table. -/
def exRegionTable : List Row := [exRow0, exRow1, exRow2]

/-- A flat table example: header `Title | Developer | Publisher | JP | NA | PAL`. -/
def exFlatTable : List Row :=
  [[hcell "Title", hcell "Developer", hcell "Publisher", hcell "JP", hcell "NA", hcell "PAL"],
   [{ content := [.link (str "Alpha")] }, { content := [.txt (str "D")] },
    { content := [.txt (str "P")] }, { content := [.txt (str "March 1996")] },
    { content := [.txt (str "August 1, 1999")] }, { content := [.txt (str "TBA")] }]]

/-!
Game records, row extraction, normalization, deduplication, table location.
-/

structure GameRecord where
  title : Option Str := none
  developer : Option Str := none
  publisher : Option Str := none
  first_released : Option Str := none
  jp_release : Option Str := none
  na_release : Option Str := none
  pal_release : Option Str := none
  europe_release : Option Str := none
  australasia_release : Option Str := none
  brazil_release : Option Str := none
  br_release : Option Str := none
  release_date : Option Str := none
  year : Option Str := none
  regions : Option Str := none
deriving DecidableEq, Repr

/-- Model of `get_link_or_italic_text`: first hyperlink's text, else first
italic's text, else the whole cell text, cleaned. -/
def get_link_or_italic_text (c : Cell) : Str :=
  match c.content.findSome? (fun n => match n with | .link s => some s | _ => none) with
  | some s => clean_text s
  | none =>
    match c.content.findSome? (fun n => match n with | .italic s => some s | _ => none) with
    | some s =>
      let t := clean_text s
      if t.isEmpty then clean_text s else t
    | none => clean_text (getText c.content)

/-- The dict comprehension shifting every `*_col` down by one (indices already
at zero stay). -/
def shiftCols (st : ColStructure) : ColStructure :=
  let sh : Option Nat → Option Nat := Option.map fun v => if 0 < v then v - 1 else v
  { title_col := sh st.title_col, developer_col := sh st.developer_col,
    publisher_col := sh st.publisher_col, first_released_col := sh st.first_released_col,
    jp_col := sh st.jp_col, na_col := sh st.na_col, pal_col := sh st.pal_col,
    europe_col := sh st.europe_col, australasia_col := sh st.australasia_col,
    brazil_col := sh st.brazil_col, br_col := sh st.br_col,
    uses_row_headers := st.uses_row_headers,
    has_region_header_row := st.has_region_header_row }

/-- Setting of one date field when the parsed date is nonempty. -/
def putDate (cells : List Cell) (col : Option Nat) (set : GameRecord → Str → GameRecord)
    (g : GameRecord) : GameRecord :=
  match col with
  | some i =>
    if i < cells.length then
      if (parse_date_cell (cells.getD i dcell)).isEmpty then g
      else set g (parse_date_cell (cells.getD i dcell))
    else g
  | none => g

/-- Title phase of `extract_cell_data`: the initial record, the adjusted
cells and the adjusted structure. -/
def extractStart (cells : List Cell) (st : ColStructure) :
    GameRecord × List Cell × ColStructure :=
  if st.uses_row_headers then
    match cells with
    | c :: rest =>
      if c.isTh && c.scope == some (str "row") then
        ({ title := some (get_link_or_italic_text c) }, rest, shiftCols st)
      else
        (match st.title_col with
         | some i => { title := some (get_link_or_italic_text (cells.getD i dcell)) }
         | none => {}, cells, st)
    | [] => ({}, [], st)
  else
    match st.title_col with
    | some i =>
      if i < cells.length then
        ({ title := some (get_link_or_italic_text (cells.getD i dcell)) }, cells, st)
      else ({}, cells, st)
    | none => ({}, cells, st)

/-- Model of `extract_cell_data`. -/
def extract_cell_data (cells : List Cell) (st : ColStructure) (console_name : Str) :
    GameRecord :=
  let _ := console_name
  let start := extractStart cells st
  let g := start.1
  let ac := start.2.1
  let ast := start.2.2
  let g := match ast.developer_col with
    | some i => if i < ac.length then
        { g with developer := some (get_link_or_italic_text (ac.getD i dcell)) } else g
    | none => g
  let g := match ast.publisher_col with
    | some i => if i < ac.length then
        { g with publisher := some (get_link_or_italic_text (ac.getD i dcell)) } else g
    | none => g
  let g := putDate ac ast.first_released_col (fun g v => { g with first_released := some v }) g
  let g := putDate ac ast.jp_col (fun g v => { g with jp_release := some v }) g
  let g := putDate ac ast.na_col (fun g v => { g with na_release := some v }) g
  let g := putDate ac ast.pal_col (fun g v => { g with pal_release := some v }) g
  let g := putDate ac ast.europe_col (fun g v => { g with europe_release := some v }) g
  let g := putDate ac ast.australasia_col (fun g v => { g with australasia_release := some v }) g
  let bcol : Option Nat :=
    match ast.brazil_col with
    | some (i + 1) => some (i + 1)
    | _ => ast.br_col
  putDate ac bcol (fun g v => { g with brazil_release := some v, br_release := some v }) g

/-- Python truthiness of `game.get('title')`. -/
def titleTruthy (g : GameRecord) : Bool :=
  match g.title with
  | some t => !t.isEmpty
  | none => false

/-- Python truthiness of the record dict itself. -/
def gameNonempty (g : GameRecord) : Bool :=
  g.title.isSome || g.developer.isSome || g.publisher.isSome || g.first_released.isSome ||
  g.jp_release.isSome || g.na_release.isSome || g.pal_release.isSome ||
  g.europe_release.isSome || g.australasia_release.isSome || g.brazil_release.isSome ||
  g.br_release.isSome || g.release_date.isSome || g.year.isSome || g.regions.isSome

/-- Model of `parse_game_table`. -/
def parse_game_table (rows : List Row) (console_name : Str) : List GameRecord :=
  if rows.length < 2 then [] else
  let st := analyze_table_structure rows
  let start := if st.has_region_header_row then 2 else 1
  (rows.drop start).foldl
    (fun games row =>
      if row.isEmpty then games else
      let game := extract_cell_data row st console_name
      if gameNonempty game && titleTruthy game then games ++ [game] else games)
    []

/-- Date parsing used by `normalize_game_data`: `'%Y-%m-%d'` on the first ten
characters when the string has at least ten, else `'%Y-%m'` on the first
seven when it has at least seven. -/
def normParseDate (s : Str) : Option PyDate :=
  if 10 ≤ s.length then strptimeYmdDash (s.take 10)
  else if 7 ≤ s.length then strptimeYm (s.take 7)
  else none

/-- Stable insertion by date, preserving original order on ties. -/
def insByDate (x : PyDate × Str) : List (PyDate × Str) → List (PyDate × Str)
  | [] => [x]
  | y :: ys => if dateLe x.1 y.1 then x :: y :: ys else y :: insByDate x ys

/-- Model of `parsed_dates.sort(key=lambda x: x[0])` (stable sort by date). -/
def sortByDate (l : List (PyDate × Str)) : List (PyDate × Str) := l.foldr insByDate []

/-- Collection of the populated (stripped, nonempty) date-field values of the
already-stripped record, in the source's field order. -/
def popDates (g : GameRecord) : List Str :=
  [g.first_released, g.jp_release, g.na_release, g.pal_release, g.europe_release,
   g.australasia_release, g.brazil_release, g.br_release, g.release_date].filterMap fun o =>
    let dv := pyStrip (o.getD [])
    if dv.isEmpty then none else some dv

/-- Pairs `(parsed, original)` for the populated dates that parse. -/
def parsedDates (g : GameRecord) : List (PyDate × Str) :=
  (popDates g).filterMap fun s => (normParseDate s).map fun dt => (dt, s)

def stripField (o : Option Str) : Option Str := o.map pyStrip

/-- Field-stripping phase of `normalize_game_data`: every present value is
stripped and title, developer and publisher are forced to exist. -/
def stripRecord (g : GameRecord) : GameRecord :=
  { title := some (pyStrip (g.title.getD [])),
    developer := some (pyStrip (g.developer.getD [])),
    publisher := some (pyStrip (g.publisher.getD [])),
    first_released := stripField g.first_released,
    jp_release := stripField g.jp_release,
    na_release := stripField g.na_release,
    pal_release := stripField g.pal_release,
    europe_release := stripField g.europe_release,
    australasia_release := stripField g.australasia_release,
    brazil_release := stripField g.brazil_release,
    br_release := stripField g.br_release,
    release_date := stripField g.release_date,
    year := stripField g.year,
    regions := stripField g.regions }

/-- Model of `normalize_game_data`: strip all fields, force title, developer
and publisher to exist, set `release_date` to the earliest populated date
(first non-empty when none parse, empty when none populated), drop
`first_released`. -/
def normalize_game_data (g : GameRecord) : GameRecord :=
  let n := stripRecord g
  let rd : Str :=
    match popDates n with
    | [] => []
    | s0 :: _ =>
      match sortByDate (parsedDates n) with
      | [] => s0
      | p :: _ => p.2
  { n with release_date := some rd, first_released := none }

/-- Key normalization: strip, lower, collapse whitespace. -/
def normKeyPart (o : Option Str) : Str :=
  joinSpace (pySplit (pyLower (pyStrip (o.getD []))))

/-- Model of `create_game_key`. -/
def create_game_key (g : GameRecord) : Str :=
  normKeyPart g.title ++ str "|||" ++ normKeyPart g.developer ++ str "|||" ++
    normKeyPart g.publisher

/-- Count of non-empty core fields (title, developer, publisher, release_date). -/
def coreCount (g : GameRecord) : Nat :=
  [g.title, g.developer, g.publisher, g.release_date].foldl
    (fun n o => if (pyStrip (o.getD [])).isEmpty then n else n + 1) 0

/-- Replacement condition of `deduplicate_games`: strictly more complete, or
the existing record lacks a release date the incoming one has. -/
def shouldReplace (existing g : GameRecord) : Bool :=
  coreCount existing < coreCount g ||
    ((pyStrip (existing.release_date.getD [])).isEmpty &&
     !(pyStrip (g.release_date.getD [])).isEmpty)

/-- Replacement of the first record carrying key `k`. -/
def replaceFirstByKey (l : List GameRecord) (k : Str) (g : GameRecord) : List GameRecord :=
  match l with
  | [] => []
  | r :: rs => if create_game_key r == k then g :: rs else r :: replaceFirstByKey rs k g

def lookupSeen (k : Str) : List (Str × GameRecord) → Option GameRecord
  | [] => none
  | p :: ps => if p.1 == k then some p.2 else lookupSeen k ps

def updateSeen (k : Str) (g : GameRecord) (seen : List (Str × GameRecord)) :
    List (Str × GameRecord) :=
  seen.map fun p => if p.1 == k then (k, g) else p

/-- One iteration of the deduplication loop over `(seen, result)`. -/
def dedupStep (acc : List (Str × GameRecord) × List GameRecord) (g : GameRecord) :
    List (Str × GameRecord) × List GameRecord :=
  let k := create_game_key g
  match lookupSeen k acc.1 with
  | none => (acc.1 ++ [(k, g)], acc.2 ++ [g])
  | some existing =>
    if shouldReplace existing g then (updateSeen k g acc.1, replaceFirstByKey acc.2 k g)
    else acc

/-- Model of `deduplicate_games`. -/
def deduplicate_games (games : List GameRecord) : List GameRecord :=
  (games.foldl dedupStep ([], [])).2

/-- Keys in order of first appearance. -/
def firstOccursAux : List Str → List Str → List Str
  | acc, [] => acc
  | acc, k :: ks => firstOccursAux (if acc.contains k then acc else acc ++ [k]) ks

def firstOccurs (l : List Str) : List Str := firstOccursAux [] l

/-- An HTML table handle: id attribute, class list, rows. -/
structure HTable where
  id : Option Str := none
  classes : List Str := []
  rows : List Row := []
deriving DecidableEq, Repr

/-- Qualification test of the fallback strategy of `find_game_tables`. -/
def fallbackQual (t : HTable) : Bool :=
  10 < t.rows.length &&
  (match t.rows with
   | [] => false
   | hr :: rest =>
     let htext := joinSpace (hr.map cellTextLower)
     ([str "title", str "game", str "name"].any (hasSub htext)) &&
     ([str "developer", str "publisher"].any (hasSub htext)) &&
     (2 ≤ ((rest.take 5).filter fun row =>
        decide (3 ≤ row.length) &&
        (match row with
         | c :: _ =>
           c.content.any (fun n => match n with | .link _ => true | _ => false) ||
           c.content.any (fun n => match n with | .italic _ => true | _ => false)
         | [] => false)).length))

/-- The fallback loop: first qualifying wikitable, then stop. -/
def strategy2 : List HTable → List HTable
  | [] => []
  | t :: ts => if fallbackQual t then [t] else strategy2 ts

def hasWikitableClass (t : HTable) : Bool := t.classes.any fun c => hasSub c (str "wikitable")

/-- Model of `find_game_tables`: tables with id `softwarelist` and more than
five rows; if none, the first qualifying wikitable. -/
def find_game_tables (doc : List HTable) : List HTable :=
  let licensed := doc.filter fun t => t.id == some (str "softwarelist")
  let found := licensed.filter fun t => 5 < t.rows.length
  if found.isEmpty then strategy2 (doc.filter hasWikitableClass) else found

/-- Leftmost element with the chronologically smallest date (specification-side
description of the result of a stable sort followed by taking the head). -/
def pickEarliest : List (PyDate × Str) → Option (PyDate × Str)
  | [] => none
  | p :: ps =>
    match pickEarliest ps with
    | none => some p
    | some q => if dateLt q.1 p.1 then some q else some p

/-- Index of the first region-row cell passing the outer region condition. -/
def firstOuterIdx : List Cell → Option Nat
  | [] => none
  | c :: cs =>
    if outerRegion (cellRegionKey c) then some 0 else (firstOuterIdx cs).map (· + 1)

/-- Index of the last region-row cell passing the outer condition together
with the given field condition. -/
def lastMatchIdx (p : Str → Bool) : List Cell → Option Nat
  | [] => none
  | c :: cs =>
    match lastMatchIdx p cs with
    | some j => some (j + 1)
    | none =>
      if outerRegion (cellRegionKey c) && p (cellRegionKey c) then some 0 else none

/-- A cell whose only date information is a sort key on a hidden nested span. -/
def cellHiddenSort : Cell :=
  { content := [.span (some (str "display:none")) (some (str "19960301")) []] }

/-- A cell with a machine-readable sort key on the cell itself. -/
def cellAttrSort : Cell := { dataSortValue := some (str "19960301") }

/-- A cell with a visible nested sort-key span and unparseable visible text. -/
def cellVisibleSpanSort : Cell :=
  { content := [.span none (some (str "19960301")) (str "angle")] }

/-- A cell whose visible text is the sentinel `tba` but which carries a
machine-readable sort key. -/
def cellSentinelWithSort : Cell :=
  { dataSortValue := some (str "19990801"), content := [.txt (str "tba")] }

/-- A plain sentinel cell. -/
def cellSentinelOnly : Cell := { content := [.txt (str "tba")] }

/-- Minimal title-only table used as a concrete witness input. -/
def exTitleTable : List Row :=
  [[hcell "Title"], [{ content := [.link (str "Mario")] }]]

/-- Table with a developer column whose data cell is empty. -/
def exDevTable : List Row :=
  [[hcell "Title", hcell "Developer"],
   [{ content := [.link (str "Mario")] }, { content := [] }]]

/-- Document with a single primary (softwarelist) table of six rows. -/
def docPrimary : List HTable :=
  [{ id := some (str "softwarelist"), rows := List.replicate 6 [] }]

/-- Two records sharing a key, the second strictly more complete. -/
def recA : GameRecord := { title := some (str "A") }

def recB : GameRecord :=
  { title := some (str "A"), release_date := some (str "1999-08-01") }

/-- Record with two regional dates, the later-listed one earlier in time. -/
def recC4 : GameRecord :=
  { jp_release := some (str "1999-08-01"), na_release := some (str "1996-03") }

/-- Every present regional release value is a rendered valid date. -/
def RegOk (g : GameRecord) : Prop :=
  (∀ v, g.jp_release = some v →
    ∃ dt : PyDate, validDate dt.y dt.m dt.d = true ∧ v = formatDate dt) ∧
  (∀ v, g.na_release = some v →
    ∃ dt : PyDate, validDate dt.y dt.m dt.d = true ∧ v = formatDate dt) ∧
  (∀ v, g.pal_release = some v →
    ∃ dt : PyDate, validDate dt.y dt.m dt.d = true ∧ v = formatDate dt) ∧
  (∀ v, g.europe_release = some v →
    ∃ dt : PyDate, validDate dt.y dt.m dt.d = true ∧ v = formatDate dt) ∧
  (∀ v, g.australasia_release = some v →
    ∃ dt : PyDate, validDate dt.y dt.m dt.d = true ∧ v = formatDate dt) ∧
  (∀ v, g.brazil_release = some v →
    ∃ dt : PyDate, validDate dt.y dt.m dt.d = true ∧ v = formatDate dt)

/-!
Theorems. First, facts about the date renderer and the strptime models.
-/

theorem digitChar_not_ws {k : Nat} (h : k < 10) : isWs (Nat.digitChar k) = false := by
  interval_cases k <;> decide

theorem formatDate_length (dt : PyDate) : (formatDate dt).length = 10 := by
  simp [formatDate, pad4, pad2]

theorem formatDate_ne_nil (dt : PyDate) : formatDate dt ≠ [] := by
  simp [formatDate, pad4]

theorem pyStrip_formatDate (dt : PyDate) : pyStrip (formatDate dt) = formatDate dt := by
  have h1 : isWs (Nat.digitChar (dt.y / 1000 % 10)) = false :=
    digitChar_not_ws (Nat.mod_lt _ (by omega))
  have h2 : isWs (Nat.digitChar (dt.d % 10)) = false :=
    digitChar_not_ws (Nat.mod_lt _ (by omega))
  simp [formatDate, pad4, pad2, pyStrip, List.dropWhile, h1, h2]

theorem mkDatetime_valid {y m d : Nat} {dt : PyDate}
    (h : mkDatetime y m d = some dt) : validDate dt.y dt.m dt.d = true := by
  unfold mkDatetime at h
  split at h
  · cases h; assumption
  · exact Option.noConfusion h

theorem strptimeY8_valid {l : Str} {dt : PyDate} (h : strptimeY8 l = some dt) :
    validDate dt.y dt.m dt.d = true := by
  unfold strptimeY8 at h
  repeat' split at h
  all_goals first
    | exact mkDatetime_valid h
    | exact Option.noConfusion h

theorem strptimeYmdDash_valid {l : Str} {dt : PyDate} (h : strptimeYmdDash l = some dt) :
    validDate dt.y dt.m dt.d = true := by
  unfold strptimeYmdDash at h
  repeat' split at h
  all_goals first
    | exact mkDatetime_valid h
    | exact Option.noConfusion h

theorem strptimeYm_valid {l : Str} {dt : PyDate} (h : strptimeYm l = some dt) :
    validDate dt.y dt.m dt.d = true := by
  unfold strptimeYm at h
  repeat' split at h
  all_goals first
    | exact mkDatetime_valid h
    | exact Option.noConfusion h

theorem strptimeBdCommaY_valid {l : Str} {dt : PyDate} (h : strptimeBdCommaY l = some dt) :
    validDate dt.y dt.m dt.d = true := by
  unfold strptimeBdCommaY at h
  repeat' split at h
  all_goals first
    | exact mkDatetime_valid h
    | exact Option.noConfusion h

theorem strptimeBdY_valid {l : Str} {dt : PyDate} (h : strptimeBdY l = some dt) :
    validDate dt.y dt.m dt.d = true := by
  unfold strptimeBdY at h
  repeat' split at h
  all_goals first
    | exact mkDatetime_valid h
    | exact Option.noConfusion h

theorem strptimeMdY_valid {l : Str} {dt : PyDate} (h : strptimeMdY l = some dt) :
    validDate dt.y dt.m dt.d = true := by
  unfold strptimeMdY at h
  repeat' split at h
  all_goals first
    | exact mkDatetime_valid h
    | exact Option.noConfusion h

theorem strptimeBY_valid {l : Str} {dt : PyDate} (h : strptimeBY l = some dt) :
    validDate dt.y dt.m dt.d = true := by
  unfold strptimeBY at h
  repeat' split at h
  all_goals first
    | exact mkDatetime_valid h
    | exact Option.noConfusion h

/-- Every successful result of the cell-level sort-value branch is a rendered
valid date. -/
theorem trySortParse_shape {s r : Str} (h : trySortParse s = some r) :
    ∃ dt : PyDate, validDate dt.y dt.m dt.d = true ∧ r = formatDate dt := by
  unfold trySortParse at h
  simp only at h
  split at h
  · next heq =>
    split at heq
    · rcases Option.map_eq_some'.mp heq with ⟨dt, hdt, hr⟩
      cases h
      exact ⟨dt, strptimeY8_valid hdt, hr.symm⟩
    · exact Option.noConfusion heq
  · split at h
    · rcases Option.map_eq_some'.mp h with ⟨dt, hdt, hr⟩
      exact ⟨dt, strptimeYmdDash_valid hdt, hr.symm⟩
    · exact Option.noConfusion h

/-- Every successful result of the span-level sort-value branch is a rendered
valid date. -/
theorem trySpanSortParse_shape {s r : Str} (h : trySpanSortParse s = some r) :
    ∃ dt : PyDate, validDate dt.y dt.m dt.d = true ∧ r = formatDate dt := by
  unfold trySpanSortParse at h
  simp only at h
  split at h
  · rcases Option.map_eq_some'.mp h with ⟨dt, hdt, hr⟩
    exact ⟨dt, strptimeY8_valid hdt, hr.symm⟩
  · exact Option.noConfusion h

theorem tryPat_shape {search : Str → Option Str} {parse : Str → Option PyDate} {t r : Str}
    (hvalid : ∀ g dt, parse g = some dt → validDate dt.y dt.m dt.d = true)
    (h : tryPat search parse t = some r) :
    ∃ dt : PyDate, validDate dt.y dt.m dt.d = true ∧ r = formatDate dt := by
  unfold tryPat at h
  split at h
  · exact Option.noConfusion h
  · split at h
    · exact Option.noConfusion h
    · next hdt => cases h; exact ⟨_, hvalid _ _ hdt, rfl⟩

/-- Every successful result of the text-pattern loop is a rendered valid date. -/
theorem tryPatterns_shape {t r : Str} (h : tryPatterns t = some r) :
    ∃ dt : PyDate, validDate dt.y dt.m dt.d = true ∧ r = formatDate dt := by
  unfold tryPatterns at h
  split at h
  · next heq => cases h; exact tryPat_shape (fun _ _ => strptimeBdCommaY_valid) heq
  · split at h
    · next heq => cases h; exact tryPat_shape (fun _ _ => strptimeBdY_valid) heq
    · split at h
      · next heq => cases h; exact tryPat_shape (fun _ _ => strptimeMdY_valid) heq
      · split at h
        · next heq => cases h; exact tryPat_shape (fun _ _ => strptimeYmdDash_valid) heq
        · split at h
          · next heq => cases h; exact tryPat_shape (fun _ _ => strptimeY8_valid) heq
          · exact tryPat_shape (fun _ _ => strptimeBY_valid) h

theorem attrStage_shape {c : Cell} {r : Str} (h : attrStage c = some r) :
    ∃ dt : PyDate, validDate dt.y dt.m dt.d = true ∧ r = formatDate dt := by
  unfold attrStage at h
  split at h
  · exact Option.noConfusion h
  · simp only at h
    split at h
    · exact Option.noConfusion h
    · exact trySortParse_shape h

theorem spanStage_shape {ns : List Node} {r : Str} (h : spanStage ns = some r) :
    ∃ dt : PyDate, validDate dt.y dt.m dt.d = true ∧ r = formatDate dt := by
  unfold spanStage at h
  split at h
  · exact Option.noConfusion h
  · simp only at h
    split at h
    · exact Option.noConfusion h
    · exact trySpanSortParse_shape h

theorem textStage_shape {ns : List Node} (h : textStage ns ≠ []) :
    ∃ dt : PyDate, validDate dt.y dt.m dt.d = true ∧ textStage ns = formatDate dt := by
  simp only [textStage] at h ⊢
  split at h
  · simp at h
  next hcond =>
    rw [if_neg hcond]
    cases hp : tryPatterns (pyStrip (List.takeWhile (fun x => x != '\n')
        (clean_text (getText ns)))) with
    | none => rw [hp] at h; simp at h
    | some r =>
      rcases tryPatterns_shape hp with ⟨dt, hv, hr⟩
      exact ⟨dt, hv, by simpa using hr⟩

/-- Shape of every `parse_date_cell` result: empty, or a rendered valid date. -/
theorem parse_date_cell_shape (c : Cell) :
    parse_date_cell c = [] ∨
      ∃ dt : PyDate, validDate dt.y dt.m dt.d = true ∧ parse_date_cell c = formatDate dt := by
  unfold parse_date_cell
  cases ha : attrStage c with
  | some r => exact Or.inr (by simpa using attrStage_shape ha)
  | none =>
    simp only
    cases hs : spanStage (removeHiddenSpans c.content) with
    | some r => exact Or.inr (by simpa using spanStage_shape hs)
    | none =>
      by_cases ht : textStage (removeHiddenSpans c.content) = []
      · exact Or.inl ht
      · exact Or.inr (textStage_shape ht)

/-- C10: for every cell, `parse_date_cell` returns either the empty string or
a ten-character `YYYY-MM-DD` rendering of a valid calendar date; month-only
inputs are resolved to the first of the month, so no bare `YYYY-MM` value is
ever returned. -/
theorem parse_date_cell_iso_or_empty (c : Cell) :
    parse_date_cell c = [] ∨
      ∃ y m d : Nat, validDate y m d = true ∧
        parse_date_cell c = formatDate ⟨y, m, d⟩ ∧ (parse_date_cell c).length = 10 := by
  rcases parse_date_cell_shape c with h | ⟨dt, hv, heq⟩
  · exact Or.inl h
  · exact Or.inr ⟨dt.y, dt.m, dt.d, hv, by rw [heq], by rw [heq]; exact formatDate_length dt⟩

/-!
Claim C2: priority order of `parse_date_cell`, and the fate of hidden
sort-key markers. Claim C8: sentinel and no-match behaviour.
-/

/-- C2 counterexample: a cell whose only date information is a sort key on a
nested hidden marker element yields the empty string, not the sort key's
date. -/
theorem parse_date_cell_hidden_marker_counterexample :
    parse_date_cell cellHiddenSort = [] ∧ parse_date_cell cellHiddenSort ≠ str "1996-03-01" := by
  constructor
  · decide
  · decide

/-- C2 (amended): a sort key on the cell wins; otherwise spans hidden from
display are removed first and the first surviving span sort key (parsed only
as digit-prefixed `YYYYMMDD`) wins; otherwise the visible text decides; a
cell whose only date information is a hidden marker's sort key yields empty. -/
theorem parse_date_cell_priority :
    (∀ (c : Cell) (r : Str), attrStage c = some r → parse_date_cell c = r) ∧
    (∀ (c : Cell) (r : Str), attrStage c = none →
        spanStage (removeHiddenSpans c.content) = some r → parse_date_cell c = r) ∧
    (∀ c : Cell, attrStage c = none → spanStage (removeHiddenSpans c.content) = none →
        parse_date_cell c = textStage (removeHiddenSpans c.content)) ∧
    (∀ style sv : Str, styleHasDisplayNone style = true → ∀ inner : Str,
        parse_date_cell { dataSortValue := none
                          content := [.span (some style) (some sv) inner] } = []) := by
  refine ⟨?_, ?_, ?_, ?_⟩
  · intro c r h
    simp only [parse_date_cell, h]
  · intro c r ha hs
    simp only [parse_date_cell, ha, hs]
  · intro c ha hs
    simp only [parse_date_cell, ha, hs]
  · intro style sv hst inner
    have hrm : removeHiddenSpans [Node.span (some style) (some sv) inner] = [] := by
      simp [removeHiddenSpans, hst]
    simp only [parse_date_cell, attrStage, hrm]
    decide

/-- C2 witness: the priority equations applied at concrete cells. -/
theorem parse_date_cell_priority_witness :
    attrStage cellAttrSort = some (str "1996-03-01") ∧
    parse_date_cell cellAttrSort = str "1996-03-01" ∧
    attrStage cellVisibleSpanSort = none ∧
    spanStage (removeHiddenSpans cellVisibleSpanSort.content) = some (str "1996-03-01") ∧
    parse_date_cell cellVisibleSpanSort = str "1996-03-01" ∧
    styleHasDisplayNone (str "display:none") = true ∧
    parse_date_cell { dataSortValue := none
                      content := [.span (some (str "display:none")) (some (str "19960301")) []] }
      = [] :=
  ⟨by decide,
   parse_date_cell_priority.1 cellAttrSort (str "1996-03-01") (by decide),
   by decide,
   by decide,
   parse_date_cell_priority.2.1 cellVisibleSpanSort (str "1996-03-01") (by decide) (by decide),
   by decide,
   parse_date_cell_priority.2.2.2 (str "display:none") (str "19960301") (by decide) []⟩

/-- C8 counterexample: a cell whose visible text is the sentinel `tba` but
which carries a machine-readable sort key yields that key's date, not empty. -/
theorem parse_date_cell_sentinel_counterexample :
    sentinelList.contains (pyLower (clean_text (getText cellSentinelWithSort.content))) = true ∧
    parse_date_cell cellSentinelWithSort = str "1999-08-01" ∧
    parse_date_cell cellSentinelWithSort ≠ [] := by
  refine ⟨by decide, by decide, by decide⟩

/-- C8 (amended): when both sort-key stages fail, a sentinel (or empty, or
pattern-free) visible text makes `parse_date_cell` return the empty string;
the function is total, so no error is ever raised. -/
theorem parse_date_cell_sentinel_empty :
    ∀ c : Cell, attrStage c = none → spanStage (removeHiddenSpans c.content) = none →
      (clean_text (getText (removeHiddenSpans c.content)) = [] ∨
       sentinelList.contains (pyLower (clean_text (getText (removeHiddenSpans c.content)))) = true ∨
       tryPatterns (pyStrip ((clean_text (getText (removeHiddenSpans c.content))).takeWhile
         (· != '\n'))) = none) →
      parse_date_cell c = [] := by
  intro c ha hs hd
  simp only [parse_date_cell, ha, hs, textStage]
  split
  · rfl
  next hcond =>
    rcases hd with hd | hd | hd
    · exact absurd (by simp only [hd, List.isEmpty_nil, Bool.true_or]) hcond
    · exact absurd (by simp only [hd, Bool.or_true]) hcond
    · rw [hd]; rfl

/-- C8 witness: the amended statement applied at a plain sentinel cell. -/
theorem parse_date_cell_sentinel_empty_witness :
    attrStage cellSentinelOnly = none ∧
    spanStage (removeHiddenSpans cellSentinelOnly.content) = none ∧
    sentinelList.contains
      (pyLower (clean_text (getText (removeHiddenSpans cellSentinelOnly.content)))) = true ∧
    parse_date_cell cellSentinelOnly = [] :=
  ⟨by decide, by decide, by decide,
   parse_date_cell_sentinel_empty cellSentinelOnly (by decide) (by decide)
     (Or.inr (Or.inl (by decide)))⟩

/-!
Claims C5 and C6: emitted records have nonempty titles; field presence.
-/

/-- Membership in the row-folding loop of `parse_game_table`. -/
theorem parse_fold_mem {console : Str} {st : ColStructure} :
    ∀ (rs : List Row) (acc : List GameRecord) (g : GameRecord),
      g ∈ rs.foldl (fun games row =>
        if row.isEmpty then games else
        let game := extract_cell_data row st console
        if gameNonempty game && titleTruthy game then games ++ [game] else games) acc →
      g ∈ acc ∨ ∃ row : Row, g = extract_cell_data row st console ∧ titleTruthy g = true := by
  intro rs
  induction rs with
  | nil => intro acc g h; exact Or.inl h
  | cons r rest ih =>
    intro acc g h
    simp only [List.foldl_cons] at h
    rcases ih _ g h with hmem | hex
    · split at hmem
      · exact Or.inl hmem
      · split at hmem
        · next hguard =>
          rcases List.mem_append.mp hmem with hacc | hone
          · exact Or.inl hacc
          · have hg : g = extract_cell_data r st console := List.mem_singleton.mp hone
            refine Or.inr ⟨r, hg, ?_⟩
            rw [hg]
            exact (Bool.and_eq_true _ _ |>.mp hguard).2
        · exact Or.inl hmem
    · exact Or.inr hex

/-- Every record produced by `parse_game_table` is an `extract_cell_data`
result with a truthy title. -/
theorem parse_game_table_mem {rows : List Row} {console : Str} {g : GameRecord}
    (h : g ∈ parse_game_table rows console) :
    ∃ row : Row, g = extract_cell_data row (analyze_table_structure rows) console ∧
      titleTruthy g = true := by
  unfold parse_game_table at h
  split at h
  · simp at h
  · rcases parse_fold_mem _ _ _ h with hnil | hex
    · simp at hnil
    · exact hex

/-- C5: every record emitted by table parsing has a present, nonempty title. -/
theorem parse_game_table_title_nonempty (rows : List Row) (console : Str) (g : GameRecord)
    (h : g ∈ parse_game_table rows console) :
    ∃ t : Str, g.title = some t ∧ t ≠ [] := by
  rcases parse_game_table_mem h with ⟨row, _, ht⟩
  unfold titleTruthy at ht
  split at ht
  · next t heq => exact ⟨t, heq, by simpa using ht⟩
  · exact Bool.noConfusion ht

/-- C5 witness: the title invariant at a concrete table. -/
theorem parse_game_table_title_nonempty_witness :
    (parse_game_table exTitleTable [] = [{ title := some (str "Mario") }]) ∧
    ∃ t : Str, ({ title := some (str "Mario") } : GameRecord).title = some t ∧ t ≠ [] :=
  ⟨by decide,
   parse_game_table_title_nonempty exTitleTable [] { title := some (str "Mario") }
     (by rw [(by decide : parse_game_table exTitleTable [] =
        [{ title := some (str "Mario") }])]; exact List.mem_singleton.mpr rfl)⟩

/-- A `putDate` step preserves `RegOk` whenever its setter does. -/
theorem putDate_regok {cells : List Cell} {col : Option Nat}
    {set : GameRecord → Str → GameRecord} {g : GameRecord}
    (hset : ∀ g v, (∃ dt : PyDate, validDate dt.y dt.m dt.d = true ∧ v = formatDate dt) →
      RegOk g → RegOk (set g v))
    (hg : RegOk g) : RegOk (putDate cells col set g) := by
  unfold putDate
  split
  · split
    · split
      · exact hg
      · next i _ hds =>
        rcases parse_date_cell_shape (cells.getD i dcell) with hnil | ⟨dt, hv, heq⟩
        · exact absurd hnil (by simpa using hds)
        · exact hset g _ ⟨dt, hv, heq⟩ hg
    · exact hg
  · exact hg

/-- The title phase never populates a regional field. -/
theorem extractStart_regions (cells : List Cell) (st : ColStructure) :
    (extractStart cells st).1.jp_release = none ∧
    (extractStart cells st).1.na_release = none ∧
    (extractStart cells st).1.pal_release = none ∧
    (extractStart cells st).1.europe_release = none ∧
    (extractStart cells st).1.australasia_release = none ∧
    (extractStart cells st).1.brazil_release = none := by
  unfold extractStart
  repeat' split
  all_goals simp

/-- Every record produced by `extract_cell_data` satisfies `RegOk`. -/
theorem extract_cell_data_regok (cells : List Cell) (st : ColStructure) (cn : Str) :
    RegOk (extract_cell_data cells st cn) := by
  simp only [extract_cell_data]
  apply putDate_regok
  · intro g v hv hg
    exact ⟨hg.1, hg.2.1, hg.2.2.1, hg.2.2.2.1, hg.2.2.2.2.1, fun w hw => by
      cases hw; exact hv⟩
  apply putDate_regok
  · intro g v hv hg
    exact ⟨hg.1, hg.2.1, hg.2.2.1, hg.2.2.2.1, fun w hw => by cases hw; exact hv,
      hg.2.2.2.2.2⟩
  apply putDate_regok
  · intro g v hv hg
    exact ⟨hg.1, hg.2.1, hg.2.2.1, fun w hw => by cases hw; exact hv, hg.2.2.2.2.1,
      hg.2.2.2.2.2⟩
  apply putDate_regok
  · intro g v hv hg
    exact ⟨hg.1, hg.2.1, fun w hw => by cases hw; exact hv, hg.2.2.2.1, hg.2.2.2.2.1,
      hg.2.2.2.2.2⟩
  apply putDate_regok
  · intro g v hv hg
    exact ⟨hg.1, fun w hw => by cases hw; exact hv, hg.2.2.1, hg.2.2.2.1, hg.2.2.2.2.1,
      hg.2.2.2.2.2⟩
  apply putDate_regok
  · intro g v hv hg
    exact ⟨fun w hw => by cases hw; exact hv, hg.2.1, hg.2.2.1, hg.2.2.2.1, hg.2.2.2.2.1,
      hg.2.2.2.2.2⟩
  apply putDate_regok
  · intro g v _ hg
    exact hg
  · rcases extractStart_regions cells st with ⟨h1, h2, h3, h4, h5, h6⟩
    refine ⟨?_, ?_, ?_, ?_, ?_, ?_⟩ <;> intro v hv <;> (repeat' split at hv) <;> simp_all

/-- C6 counterexample: the pipeline output on a table whose developer cell is
empty carries a `developer` key holding the empty string and a `release_date`
key holding the empty string, although no value was found for either. -/
theorem optional_field_presence_counterexample :
    ((parse_game_table exDevTable []).map normalize_game_data).map (fun g => g.developer)
      = [some []] ∧
    ((parse_game_table exDevTable []).map normalize_game_data).map (fun g => g.release_date)
      = [some []] := by
  exact ⟨by decide, by decide⟩

/-- C6 (amended): in every normalized pipeline record the regional release
fields are present only with a nonempty value, while `developer`, `publisher`
and `release_date` are always present (possibly empty); no field holds null,
values being strings by construction. -/
theorem normalized_field_presence (rows : List Row) (console : Str) (g : GameRecord)
    (h : g ∈ (parse_game_table rows console).map normalize_game_data) :
    g.developer.isSome = true ∧ g.publisher.isSome = true ∧ g.release_date.isSome = true ∧
    (∀ v, g.jp_release = some v → v ≠ []) ∧ (∀ v, g.na_release = some v → v ≠ []) ∧
    (∀ v, g.pal_release = some v → v ≠ []) ∧ (∀ v, g.europe_release = some v → v ≠ []) ∧
    (∀ v, g.australasia_release = some v → v ≠ []) ∧
    (∀ v, g.brazil_release = some v → v ≠ []) := by
  rcases List.mem_map.mp h with ⟨g0, hg0, rfl⟩
  rcases parse_game_table_mem hg0 with ⟨row, hrow, _⟩
  have hreg : RegOk g0 := by rw [hrow]; exact extract_cell_data_regok _ _ _
  obtain ⟨hjp, hna, hpal, heu, hau, hbz⟩ := hreg
  have hfield : ∀ (o : Option Str) (v : Str),
      (∀ w, o = some w → ∃ dt : PyDate, validDate dt.y dt.m dt.d = true ∧ w = formatDate dt) →
      stripField o = some v → v ≠ [] := by
    intro o v hsh hv
    rcases Option.map_eq_some'.mp hv with ⟨w, hw, rfl⟩
    rcases hsh w hw with ⟨dt, _, rfl⟩
    rw [pyStrip_formatDate]
    exact formatDate_ne_nil dt
  refine ⟨by simp [normalize_game_data, stripRecord], by simp [normalize_game_data, stripRecord],
    by simp [normalize_game_data], ?_, ?_, ?_, ?_, ?_, ?_⟩
  · intro v hv
    exact hfield _ v hjp (by simpa [normalize_game_data, stripRecord] using hv)
  · intro v hv
    exact hfield _ v hna (by simpa [normalize_game_data, stripRecord] using hv)
  · intro v hv
    exact hfield _ v hpal (by simpa [normalize_game_data, stripRecord] using hv)
  · intro v hv
    exact hfield _ v heu (by simpa [normalize_game_data, stripRecord] using hv)
  · intro v hv
    exact hfield _ v hau (by simpa [normalize_game_data, stripRecord] using hv)
  · intro v hv
    exact hfield _ v hbz (by simpa [normalize_game_data, stripRecord] using hv)

/-- C6 witness: the amended statement at the concrete pipeline output. -/
theorem normalized_field_presence_witness :
    (normalize_game_data { title := some (str "Mario"), developer := some [] })
      ∈ (parse_game_table exDevTable []).map normalize_game_data ∧
    (normalize_game_data { title := some (str "Mario")
                           developer := some [] }).developer.isSome = true :=
  ⟨by decide,
   (normalized_field_presence exDevTable []
     (normalize_game_data { title := some (str "Mario"), developer := some [] })
     (by decide)).1⟩

/-!
Claim C4: the `release_date` computation of `normalize_game_data`.
-/

theorem dateLe_refl (a : PyDate) : dateLe a a = true := by
  simp only [dateLe, Bool.or_eq_true, Bool.and_eq_true, decide_eq_true_eq, beq_iff_eq,
    true_and, eq_self_iff_true]
  omega

theorem dateLe_eq_not_lt (a b : PyDate) : dateLe a b = !dateLt b a := by
  have h1 : dateLe a b = true ↔
      a.y < b.y ∨ (a.y = b.y ∧ (a.m < b.m ∨ (a.m = b.m ∧ a.d ≤ b.d))) := by
    simp [dateLe]
  have h2 : dateLt b a = true ↔
      b.y < a.y ∨ (b.y = a.y ∧ (b.m < a.m ∨ (b.m = a.m ∧ b.d < a.d))) := by
    simp [dateLt]
  cases hlt : dateLt b a with
  | false =>
    have hn : ¬(b.y < a.y ∨ (b.y = a.y ∧ (b.m < a.m ∨ (b.m = a.m ∧ b.d < a.d)))) := by
      rw [← h2, hlt]
      simp
    simp only [Bool.not_false]
    exact h1.mpr (by omega)
  | true =>
    have hp : b.y < a.y ∨ (b.y = a.y ∧ (b.m < a.m ∨ (b.m = a.m ∧ b.d < a.d))) := h2.mp hlt
    simp only [Bool.not_true]
    rw [Bool.eq_false_iff]
    intro hcon
    have := h1.mp hcon
    omega

theorem dateLt_imp_le {a b : PyDate} (h : dateLt a b = true) : dateLe a b = true := by
  rcases a with ⟨ay, am, ad⟩
  rcases b with ⟨cy, cm, cd⟩
  simp only [dateLe, dateLt, Bool.or_eq_true, Bool.and_eq_true, decide_eq_true_eq,
    beq_iff_eq] at h ⊢
  omega

theorem dateLe_trans {a b c : PyDate} (h1 : dateLe a b = true) (h2 : dateLe b c = true) :
    dateLe a c = true := by
  rcases a with ⟨ay, am, ad⟩
  rcases b with ⟨cy, cm, cd⟩
  rcases c with ⟨ey, em, ed⟩
  simp only [dateLe, Bool.or_eq_true, Bool.and_eq_true, decide_eq_true_eq,
    beq_iff_eq] at h1 h2 ⊢
  omega

theorem insByDate_length (x : PyDate × Str) (l : List (PyDate × Str)) :
    (insByDate x l).length = l.length + 1 := by
  induction l with
  | nil => rfl
  | cons y ys ih =>
    unfold insByDate
    split
    · simp
    · simpa using ih

theorem sortByDate_length (l : List (PyDate × Str)) : (sortByDate l).length = l.length := by
  induction l with
  | nil => rfl
  | cons p ps ih =>
    show (insByDate p (sortByDate ps)).length = ps.length + 1
    rw [insByDate_length, ih]

theorem pickEarliest_eq_none_iff (l : List (PyDate × Str)) :
    pickEarliest l = none ↔ l = [] := by
  cases l with
  | nil => simp [pickEarliest]
  | cons p ps =>
    constructor
    · intro h
      unfold pickEarliest at h
      split at h <;> first | exact Option.noConfusion h | split at h <;> exact Option.noConfusion h
    · intro h
      exact List.noConfusion h

/-- Head of the stable sort: the leftmost minimal element. -/
theorem head?_sortByDate (l : List (PyDate × Str)) :
    (sortByDate l).head? = pickEarliest l := by
  induction l with
  | nil => rfl
  | cons p ps ih =>
    show (insByDate p (sortByDate ps)).head? = pickEarliest (p :: ps)
    cases hs : sortByDate ps with
    | nil =>
      have hps : ps = [] := by
        have := sortByDate_length ps
        rw [hs] at this
        exact List.eq_nil_of_length_eq_zero this.symm
      subst hps
      rfl
    | cons q qs =>
      have hq : pickEarliest ps = some q := by
        rw [← ih, hs]
        rfl
      have hpe : pickEarliest (p :: ps) = if dateLt q.1 p.1 then some q else some p := by
        unfold pickEarliest
        rw [hq]
      rw [hpe]
      unfold insByDate
      split
      · next hle =>
        have hlt : ¬dateLt q.1 p.1 = true := by
          rw [dateLe_eq_not_lt] at hle
          simp only [Bool.not_eq_true'] at hle
          simp [hle]
        rw [if_neg hlt]
        rfl
      · next hnle =>
        have hlt : dateLt q.1 p.1 = true := by
          rw [dateLe_eq_not_lt] at hnle
          simpa using hnle
        rw [if_pos hlt]
        rfl

/-- The chosen element is a member, is no later than any element, and earlier
positions hold strictly later dates. -/
theorem pickEarliest_spec (l : List (PyDate × Str)) (dt : PyDate) (s : Str)
    (h : pickEarliest l = some (dt, s)) :
    (dt, s) ∈ l ∧ (∀ q ∈ l, dateLe dt q.1 = true) ∧
      ∃ i, l.get? i = some (dt, s) ∧
        ∀ j q, j < i → l.get? j = some q → dateLt dt q.1 = true := by
  induction l generalizing dt s with
  | nil => exact Option.noConfusion h
  | cons a as ih =>
    cases hpe : pickEarliest as with
    | none =>
      have ha : pickEarliest (a :: as) = some a := by
        unfold pickEarliest
        rw [hpe]
      rw [ha] at h
      have haeq : (dt, s) = a := by injection h with h'; exact h'.symm
      have has : as = [] := (pickEarliest_eq_none_iff as).mp hpe
      subst has
      rw [← haeq]
      refine ⟨List.mem_singleton.mpr rfl, ?_, 0, rfl, ?_⟩
      · intro q hq
        rw [List.mem_singleton.mp hq]
        exact dateLe_refl _
      · intro j q hj hq
        omega
    | some q0 =>
      have ha : pickEarliest (a :: as) = if dateLt q0.1 a.1 then some q0 else some a := by
        unfold pickEarliest
        rw [hpe]
      rw [ha] at h
      split at h
      · next hlt =>
        have hq0 : (dt, s) = q0 := by injection h with h'; exact h'.symm
        rw [← hq0] at hpe hlt
        rcases ih _ _ hpe with ⟨hmem, hbnd, i, hget, hleft⟩
        refine ⟨List.mem_cons_of_mem a hmem, ?_, i + 1, by simpa using hget, ?_⟩
        · intro q hq
          rcases List.mem_cons.mp hq with rfl | hq'
          · exact dateLt_imp_le hlt
          · exact hbnd q hq'
        · intro j q hj hq
          cases j with
          | zero =>
            have ha0 : a = q := by simpa using hq
            rw [← ha0]
            exact hlt
          | succ j' =>
            exact hleft j' q (by omega) (by simpa using hq)
      · next hnlt =>
        have haeq : (dt, s) = a := by injection h with h'; exact h'.symm
        rw [← haeq] at hnlt
        rw [← haeq]
        refine ⟨List.mem_cons_self _ _, ?_, 0, rfl, ?_⟩
        · intro q hq
          rcases List.mem_cons.mp hq with rfl | hq'
          · exact dateLe_refl _
          · rcases ih _ _ hpe with ⟨_, hbnd, _⟩
            have h1 : dateLe (dt, s).1 q0.1 = true := by
              rw [dateLe_eq_not_lt]
              simpa using hnlt
            exact dateLe_trans h1 (hbnd q hq')
        · intro j q hj hq
          omega

theorem pyStrip_idem (l : Str) : pyStrip (pyStrip l) = pyStrip l := by
  show List.rdropWhile isWs (List.dropWhile isWs (List.rdropWhile isWs (List.dropWhile isWs l)))
      = List.rdropWhile isWs (List.dropWhile isWs l)
  have hdw : List.dropWhile isWs (List.rdropWhile isWs (List.dropWhile isWs l))
      = List.rdropWhile isWs (List.dropWhile isWs l) := by
    rw [List.dropWhile_eq_self_iff]
    intro hl
    have hpre : List.rdropWhile isWs (List.dropWhile isWs l) <+: List.dropWhile isWs l :=
      List.rdropWhile_prefix isWs _
    have hlen : 0 < (List.dropWhile isWs l).length :=
      lt_of_lt_of_le hl hpre.length_le
    have hget := hpre.getElem hl
    rw [List.get_eq_getElem, hget]
    have hz := List.dropWhile_get_zero_not isWs l hlen
    simpa [List.get_eq_getElem] using hz
  rw [hdw]
  exact List.rdropWhile_idempotent isWs _

theorem stripField_popEntry (o : Option Str) :
    pyStrip ((stripField o).getD []) = pyStrip (o.getD []) := by
  cases o with
  | none => rfl
  | some x => exact pyStrip_idem x

/-- The date-collection phase sees the same values before and after the
field-stripping phase. -/
theorem popDates_stripRecord (g : GameRecord) : popDates (stripRecord g) = popDates g := by
  unfold popDates
  simp only [stripRecord, List.filterMap_cons, List.filterMap_nil, stripField_popEntry]

theorem parsedDates_stripRecord (g : GameRecord) :
    parsedDates (stripRecord g) = parsedDates g := by
  unfold parsedDates
  rw [popDates_stripRecord]

/-- Branch structure of the `release_date` computation. -/
theorem normalize_release_date_eq (g : GameRecord) :
    (normalize_game_data g).release_date = some
      (match popDates g with
       | [] => []
       | s0 :: _ =>
         match sortByDate (parsedDates g) with
         | [] => s0
         | p :: _ => p.2) ∧
    (normalize_game_data g).first_released = none := by
  constructor
  · simp only [normalize_game_data]
    rw [popDates_stripRecord, parsedDates_stripRecord]
  · simp [normalize_game_data]

/-- C4: `release_date` is the chronologically earliest populated date (ties
broken by field order), the first populated value verbatim when none parse,
empty when nothing is populated; `first_released` is dropped. -/
theorem normalize_release_date_spec :
    (∀ g : GameRecord,
      (∀ (dt : PyDate) (s : Str), pickEarliest (parsedDates g) = some (dt, s) →
        (normalize_game_data g).release_date = some s) ∧
      (∀ (s : Str) (rest : List Str), popDates g = s :: rest → parsedDates g = [] →
        (normalize_game_data g).release_date = some s) ∧
      (popDates g = [] → (normalize_game_data g).release_date = some []) ∧
      (normalize_game_data g).first_released = none) ∧
    (∀ (l : List (PyDate × Str)) (dt : PyDate) (s : Str), pickEarliest l = some (dt, s) →
      (dt, s) ∈ l ∧ (∀ q ∈ l, dateLe dt q.1 = true) ∧
      ∃ i, l.get? i = some (dt, s) ∧
        ∀ j q, j < i → l.get? j = some q → dateLt dt q.1 = true) := by
  constructor
  · intro g
    obtain ⟨hrd, hfr⟩ := normalize_release_date_eq g
    refine ⟨?_, ?_, ?_, hfr⟩
    · intro dt s hpick
      rw [hrd]
      have hhead : (sortByDate (parsedDates g)).head? = some (dt, s) := by
        rw [head?_sortByDate]
        exact hpick
      obtain ⟨tl, htl⟩ : ∃ tl, sortByDate (parsedDates g) = (dt, s) :: tl := by
        cases hsx : sortByDate (parsedDates g) with
        | nil => rw [hsx] at hhead; exact Option.noConfusion hhead
        | cons x xs =>
          rw [hsx] at hhead
          cases hhead
          exact ⟨xs, rfl⟩
      have hpop : popDates g ≠ [] := by
        intro hnil
        have hemp : parsedDates g = [] := by unfold parsedDates; rw [hnil]; rfl
        rw [hemp] at hpick
        exact Option.noConfusion hpick
      obtain ⟨s0, rest, hpr⟩ : ∃ s0 rest, popDates g = s0 :: rest := by
        cases hx : popDates g with
        | nil => exact absurd hx hpop
        | cons a as => exact ⟨a, as, rfl⟩
      rw [hpr, htl]
    · intro s rest hpop hparse
      rw [hrd, hpop, hparse]
      rfl
    · intro hpop
      rw [hrd, hpop]
  · exact pickEarliest_spec

/-- C4 witness: the earliest-date rule at a concrete record. -/
theorem normalize_release_date_spec_witness :
    pickEarliest (parsedDates recC4) = some (⟨1996, 3, 1⟩, str "1996-03") ∧
    (normalize_game_data recC4).release_date = some (str "1996-03") :=
  ⟨by decide,
   (normalize_release_date_spec.1 recC4).1 ⟨1996, 3, 1⟩ (str "1996-03") (by decide)⟩

/-!
Claims C3 and C9: deduplication.
-/

theorem lookupSeen_eq_find? (k : Str) (l : List GameRecord) :
    lookupSeen k (l.map fun g => (create_game_key g, g)) =
      l.find? (fun r => create_game_key r == k) := by
  induction l with
  | nil => rfl
  | cons r rs ih =>
    simp only [List.map_cons, lookupSeen]
    cases h : (create_game_key r == k) with
    | true =>
      rw [if_pos rfl]
      simp [List.find?, h]
    | false =>
      rw [if_neg (by simp)]
      simp only [List.find?, h]
      exact ih

theorem updateSeen_not_mem {k : Str} {g : GameRecord} {rs : List GameRecord}
    (h : k ∉ rs.map create_game_key) :
    updateSeen k g (rs.map fun r => (create_game_key r, r)) =
      rs.map fun r => (create_game_key r, r) := by
  induction rs with
  | nil => rfl
  | cons r rest ih =>
    simp only [List.map_cons, updateSeen, List.map]
    have hne : ¬(create_game_key r = k) := fun hc =>
      h (by rw [List.map_cons, hc]; exact List.mem_cons_self _ _)
    rw [if_neg (by simpa using hne)]
    have hrest : k ∉ rest.map create_game_key := fun hc =>
      h (by rw [List.map_cons]; exact List.mem_cons_of_mem _ hc)
    have hih := ih hrest
    simp only [updateSeen] at hih
    rw [hih]

theorem replaceFirstByKey_map_key (l : List GameRecord) (g : GameRecord) :
    (replaceFirstByKey l (create_game_key g) g).map create_game_key =
      l.map create_game_key := by
  induction l with
  | nil => rfl
  | cons r rs ih =>
    unfold replaceFirstByKey
    cases h : (create_game_key r == create_game_key g) with
    | true =>
      rw [if_pos rfl]
      simp only [List.map_cons]
      rw [(by simpa using h : create_game_key r = create_game_key g)]
    | false =>
      rw [if_neg (by simp)]
      simp only [List.map_cons, ih]

theorem updateSeen_eq_replace (g : GameRecord) (l : List GameRecord)
    (hnd : (l.map create_game_key).Nodup) :
    updateSeen (create_game_key g) g (l.map fun r => (create_game_key r, r)) =
      (replaceFirstByKey l (create_game_key g) g).map fun r => (create_game_key r, r) := by
  induction l with
  | nil => rfl
  | cons r rs ih =>
    rw [List.map_cons] at hnd ⊢
    obtain ⟨hhead, htail⟩ := List.nodup_cons.mp hnd
    unfold replaceFirstByKey
    simp only [updateSeen, List.map]
    cases h : (create_game_key r == create_game_key g) with
    | true =>
      rw [if_pos rfl, if_pos rfl]
      simp only [List.map_cons]
      have hkey : create_game_key r = create_game_key g := by simpa using h
      have hnotin : create_game_key g ∉ rs.map create_game_key := by
        rw [← hkey]
        exact hhead
      have hupd := @updateSeen_not_mem (create_game_key g) g rs hnotin
      simp only [updateSeen] at hupd
      rw [hupd]
    | false =>
      rw [if_neg (by simp), if_neg (by simp)]
      simp only [List.map_cons]
      have hih := ih htail
      simp only [updateSeen] at hih
      rw [hih]

/-- Invariant of the deduplication loop: the `seen` map mirrors the result
list, result keys are distinct and ordered by first appearance. -/
theorem dedup_fold_inv :
    ∀ (xs res : List GameRecord),
      (res.map create_game_key).Nodup →
      ∃ out : List GameRecord,
        xs.foldl dedupStep (res.map fun g => (create_game_key g, g), res) =
          (out.map fun g => (create_game_key g, g), out) ∧
        (out.map create_game_key).Nodup ∧
        out.map create_game_key =
          firstOccursAux (res.map create_game_key) (xs.map create_game_key) := by
  intro xs
  induction xs with
  | nil =>
    intro res hnd
    exact ⟨res, rfl, hnd, rfl⟩
  | cons x rest ih =>
    intro res hnd
    rw [List.foldl_cons]
    cases hf : List.find? (fun r => create_game_key r == create_game_key x) res with
    | none =>
      have hlook : lookupSeen (create_game_key x)
          (res.map fun g => (create_game_key g, g)) = none := by
        rw [lookupSeen_eq_find?, hf]
      have hstep : dedupStep (res.map fun g => (create_game_key g, g), res) x =
          ((res ++ [x]).map fun g => (create_game_key g, g), res ++ [x]) := by
        simp only [dedupStep, hlook, List.map_append, List.map_cons, List.map_nil]
      rw [hstep]
      have hx : create_game_key x ∉ res.map create_game_key := by
        intro hc
        rcases List.mem_map.mp hc with ⟨r, hr, hkey⟩
        have hfr := List.find?_eq_none.mp hf r hr
        simp [hkey] at hfr
      have hnd' : ((res ++ [x]).map create_game_key).Nodup := by
        rw [List.map_append]
        simp [List.nodup_append, hnd, hx]
      obtain ⟨out, h1, h2, h3⟩ := ih (res ++ [x]) hnd'
      refine ⟨out, h1, h2, ?_⟩
      rw [h3, List.map_cons]
      have hcont : (res.map create_game_key).contains (create_game_key x) = false := by
        simpa using hx
      simp only [firstOccursAux, hcont, List.map_append]
      rfl
    | some e =>
      have hkey : create_game_key e = create_game_key x := by
        have hsome := List.find?_some hf
        simpa using hsome
      have hmeme : e ∈ res := List.mem_of_find?_eq_some hf
      have hxmem : create_game_key x ∈ res.map create_game_key :=
        List.mem_map.mpr ⟨e, hmeme, hkey⟩
      have hcont : (res.map create_game_key).contains (create_game_key x) = true := by
        simpa using hxmem
      have hlook : lookupSeen (create_game_key x)
          (res.map fun g => (create_game_key g, g)) = some e := by
        rw [lookupSeen_eq_find?, hf]
      cases hrep : shouldReplace e x with
      | true =>
        have hstep : dedupStep (res.map fun g => (create_game_key g, g), res) x =
            ((replaceFirstByKey res (create_game_key x) x).map fun g => (create_game_key g, g),
              replaceFirstByKey res (create_game_key x) x) := by
          simp only [dedupStep, hlook, hrep]
          rw [updateSeen_eq_replace x res hnd]
          simp
        rw [hstep]
        have hkeys := replaceFirstByKey_map_key res x
        have hnd' : ((replaceFirstByKey res (create_game_key x) x).map create_game_key).Nodup := by
          rw [hkeys]
          exact hnd
        obtain ⟨out, h1, h2, h3⟩ := ih _ hnd'
        refine ⟨out, h1, h2, ?_⟩
        rw [h3, hkeys, List.map_cons]
        simp only [firstOccursAux, hcont]
        simp
      | false =>
        have hstep : dedupStep (res.map fun g => (create_game_key g, g), res) x =
            (res.map fun g => (create_game_key g, g), res) := by
          simp only [dedupStep, hlook, hrep]
          simp
        rw [hstep]
        obtain ⟨out, h1, h2, h3⟩ := ih res hnd
        refine ⟨out, h1, h2, ?_⟩
        rw [h3, List.map_cons]
        simp only [firstOccursAux, hcont]
        simp

/-- State of the deduplication fold from the empty state. -/
theorem dedup_carrier (xs : List GameRecord) :
    xs.foldl dedupStep ([], []) =
      ((deduplicate_games xs).map fun g => (create_game_key g, g), deduplicate_games xs) ∧
    ((deduplicate_games xs).map create_game_key).Nodup ∧
    (deduplicate_games xs).map create_game_key = firstOccurs (xs.map create_game_key) := by
  obtain ⟨out, h1, h2, h3⟩ := dedup_fold_inv xs [] (by simp)
  have h1' : xs.foldl dedupStep ([], []) = (out.map fun g => (create_game_key g, g), out) := h1
  have hout : deduplicate_games xs = out := by
    unfold deduplicate_games
    rw [h1']
  rw [hout]
  exact ⟨h1', h2, h3⟩

/-- C3: deduplication produces key-distinct records in first-appearance
order, and a colliding incoming record replaces the stored one exactly when
`shouldReplace` holds. -/
theorem deduplicate_games_spec (xs : List GameRecord) :
    ((deduplicate_games xs).map create_game_key).Nodup ∧
    (deduplicate_games xs).map create_game_key = firstOccurs (xs.map create_game_key) ∧
    ∀ g : GameRecord,
      ((deduplicate_games xs).find? (fun r => create_game_key r == create_game_key g) = none →
        deduplicate_games (xs ++ [g]) = deduplicate_games xs ++ [g]) ∧
      ∀ e : GameRecord,
        (deduplicate_games xs).find? (fun r => create_game_key r == create_game_key g)
            = some e →
          deduplicate_games (xs ++ [g]) =
            if shouldReplace e g then
              replaceFirstByKey (deduplicate_games xs) (create_game_key g) g
            else deduplicate_games xs := by
  obtain ⟨hstate, hnd, hfo⟩ := dedup_carrier xs
  refine ⟨hnd, hfo, ?_⟩
  intro g
  have happ : deduplicate_games (xs ++ [g]) =
      (dedupStep ((deduplicate_games xs).map fun r => (create_game_key r, r),
        deduplicate_games xs) g).2 := by
    show ((xs ++ [g]).foldl dedupStep ([], [])).2 = _
    rw [List.foldl_append, hstate]
    rfl
  constructor
  · intro hfind
    rw [happ]
    simp only [dedupStep, lookupSeen_eq_find?, hfind]
  · intro e hfind
    rw [happ]
    simp only [dedupStep, lookupSeen_eq_find?, hfind]
    cases hrep : shouldReplace e g with
    | true => simp [hrep]
    | false => simp [hrep]

/-- C3 witness: a colliding, more complete record replaces the stored one. -/
theorem deduplicate_games_spec_witness :
    (deduplicate_games [recA]).find?
      (fun r => create_game_key r == create_game_key recB) = some recA ∧
    shouldReplace recA recB = true ∧
    deduplicate_games ([recA] ++ [recB]) =
      if shouldReplace recA recB then
        replaceFirstByKey (deduplicate_games [recA]) (create_game_key recB) recB
      else deduplicate_games [recA] :=
  ⟨by decide, by decide,
   ((deduplicate_games_spec [recA]).2.2 recB).2 recA (by decide)⟩

/-- Deduplication leaves a key-distinct list untouched. -/
theorem dedup_fold_nodup :
    ∀ (xs res : List GameRecord),
      (∀ k, k ∈ res.map create_game_key → k ∈ xs.map create_game_key → False) →
      (xs.map create_game_key).Nodup →
      xs.foldl dedupStep (res.map fun g => (create_game_key g, g), res) =
        ((res ++ xs).map fun g => (create_game_key g, g), res ++ xs) := by
  intro xs
  induction xs with
  | nil =>
    intro res _ _
    simp
  | cons x rest ih =>
    intro res hdisj hnd
    rw [List.foldl_cons]
    have hx : create_game_key x ∉ res.map create_game_key := fun hc =>
      hdisj _ hc (by simp)
    have hfind : List.find? (fun r => create_game_key r == create_game_key x) res = none := by
      rw [List.find?_eq_none]
      intro r hr hbeq
      exact hx (List.mem_map.mpr ⟨r, hr, by simpa using hbeq⟩)
    have hlook : lookupSeen (create_game_key x)
        (res.map fun g => (create_game_key g, g)) = none := by
      rw [lookupSeen_eq_find?, hfind]
    have hstep : dedupStep (res.map fun g => (create_game_key g, g), res) x =
        ((res ++ [x]).map fun g => (create_game_key g, g), res ++ [x]) := by
      simp only [dedupStep, hlook, List.map_append, List.map_cons, List.map_nil]
    rw [hstep]
    rw [List.map_cons] at hnd
    obtain ⟨hxrest, hndrest⟩ := List.nodup_cons.mp hnd
    have hdisj' : ∀ k, k ∈ (res ++ [x]).map create_game_key →
        k ∈ rest.map create_game_key → False := by
      intro k hk1 hk2
      rw [List.map_append] at hk1
      rcases List.mem_append.mp hk1 with hres | hsing
      · exact hdisj k hres (by rw [List.map_cons]; exact List.mem_cons_of_mem _ hk2)
      · have : k = create_game_key x := by simpa using hsing
        rw [this] at hk2
        exact hxrest hk2
    have hres := ih (res ++ [x]) hdisj' hndrest
    rw [hres]
    simp

theorem deduplicate_games_nodup_id (xs : List GameRecord)
    (hnd : (xs.map create_game_key).Nodup) : deduplicate_games xs = xs := by
  have hfold := dedup_fold_nodup xs [] (by simp) hnd
  have h2 : xs.foldl dedupStep ([], []) =
      ((([] : List GameRecord) ++ xs).map fun g => (create_game_key g, g),
        ([] : List GameRecord) ++ xs) := hfold
  unfold deduplicate_games
  rw [h2]
  simp

/-- C9: `deduplicate_games` is idempotent. -/
theorem deduplicate_games_idempotent (xs : List GameRecord) :
    deduplicate_games (deduplicate_games xs) = deduplicate_games xs :=
  deduplicate_games_nodup_id _ (dedup_carrier xs).2.1

/-!
Claim C1: region column indices under a region header row.
-/

theorem assignRegion_jp (st : ColStructure) (t : Str) (a : Nat) :
    (assignRegion st t a).jp_col = if innerJp t then some a else st.jp_col := by
  simp only [assignRegion]
  split_ifs <;> rfl

theorem assignRegion_na (st : ColStructure) (t : Str) (a : Nat) :
    (assignRegion st t a).na_col = if innerNa t then some a else st.na_col := by
  simp only [assignRegion]
  split_ifs <;> rfl

theorem assignRegion_pal (st : ColStructure) (t : Str) (a : Nat) :
    (assignRegion st t a).pal_col = if innerPal t then some a else st.pal_col := by
  simp only [assignRegion]
  split_ifs <;> rfl

theorem assignRegion_europe (st : ColStructure) (t : Str) (a : Nat) :
    (assignRegion st t a).europe_col = if innerEurope t then some a else st.europe_col := by
  simp only [assignRegion]
  split_ifs <;> rfl

theorem assignRegion_australasia (st : ColStructure) (t : Str) (a : Nat) :
    (assignRegion st t a).australasia_col =
      if innerAustralasia t then some a else st.australasia_col := by
  simp only [assignRegion]
  split_ifs <;> rfl

theorem assignRegion_brazil (st : ColStructure) (t : Str) (a : Nat) :
    (assignRegion st t a).brazil_col = if innerBrazil t then some a else st.brazil_col := by
  simp only [assignRegion]
  split_ifs <;> rfl

theorem lastMatchIdx_cons (p : Str → Bool) (c : Cell) (cs : List Cell) :
    lastMatchIdx p (c :: cs) =
      match lastMatchIdx p cs with
      | some j => some (j + 1)
      | none =>
        if outerRegion (cellRegionKey c) && p (cellRegionKey c) then some 0 else none := rfl

theorem firstOuterIdx_cons (c : Cell) (cs : List Cell) :
    firstOuterIdx (c :: cs) =
      if outerRegion (cellRegionKey c) then some 0 else (firstOuterIdx cs).map (· + 1) := rfl

/-- Field value after the loop has fixed the start index. -/
theorem regionLoop_started (getF : ColStructure → Option Nat) (p : Str → Bool)
    (compat : ∀ (st : ColStructure) (t : Str) (a : Nat),
      getF (assignRegion st t a) = if p t then some a else getF st) :
    ∀ (cs : List Cell) (st : ColStructure) (idx s cid : Nat),
      (∀ j, lastMatchIdx p cs = some j →
        getF (regionLoop cid st idx (some s) cs) = some (cid + (idx + j - s))) ∧
      (lastMatchIdx p cs = none → getF (regionLoop cid st idx (some s) cs) = getF st) := by
  intro cs
  induction cs with
  | nil =>
    intro st idx s cid
    exact ⟨fun j hj => Option.noConfusion hj, fun _ => rfl⟩
  | cons c cs ih =>
    intro st idx s cid
    constructor
    · intro j hj
      unfold regionLoop
      simp only [Option.getD_some]
      by_cases hout : outerRegion (cellRegionKey c)
      · rw [if_pos hout]
        cases hl : lastMatchIdx p cs with
        | some j' =>
          have hj' : j = j' + 1 := by
            rw [lastMatchIdx_cons, hl] at hj
            exact (Option.some.inj hj).symm
          subst hj'
          rw [(ih _ (idx + 1) s cid).1 j' hl]
          have harith : idx + 1 + j' - s = idx + (j' + 1) - s := by omega
          rw [harith]
        | none =>
          rw [lastMatchIdx_cons, hl] at hj
          have hp : p (cellRegionKey c) = true := by
            by_cases hp : p (cellRegionKey c)
            · exact hp
            · rw [if_neg (by simp [hp])] at hj
              exact Option.noConfusion hj
          rw [if_pos (by simp [hout, hp])] at hj
          have hj0 : j = 0 := (Option.some.inj hj).symm
          subst hj0
          rw [(ih _ (idx + 1) s cid).2 hl, compat, if_pos hp]
          have harith : idx - s = idx + 0 - s := by omega
          rw [harith]
      · rw [if_neg hout]
        rw [lastMatchIdx_cons] at hj
        cases hl : lastMatchIdx p cs with
        | some j' =>
          rw [hl] at hj
          have hj' : j = j' + 1 := (Option.some.inj hj).symm
          subst hj'
          rw [(ih st (idx + 1) s cid).1 j' hl]
          have harith : idx + 1 + j' - s = idx + (j' + 1) - s := by omega
          rw [harith]
        | none =>
          rw [hl, if_neg (by simp [hout])] at hj
          exact Option.noConfusion hj
    · intro hj
      unfold regionLoop
      simp only [Option.getD_some]
      rw [lastMatchIdx_cons] at hj
      by_cases hout : outerRegion (cellRegionKey c)
      · cases hl : lastMatchIdx p cs with
        | some j' =>
          rw [hl] at hj
          exact Option.noConfusion hj
        | none =>
          rw [hl] at hj
          have hp : p (cellRegionKey c) = false := by
            by_cases hp : p (cellRegionKey c)
            · rw [if_pos (by simp [hout, hp])] at hj
              exact Option.noConfusion hj
            · simpa using hp
          rw [if_pos hout, (ih _ (idx + 1) s cid).2 hl, compat, if_neg (by simp [hp])]
      · cases hl : lastMatchIdx p cs with
        | some j' =>
          rw [hl] at hj
          exact Option.noConfusion hj
        | none =>
          rw [if_neg hout]
          exact (ih st (idx + 1) s cid).2 hl

/-- Field value of the whole loop: last matching index relative to the first
outer-matching index, offset by the data-row column count. -/
theorem regionLoop_spec (getF : ColStructure → Option Nat) (p : Str → Bool)
    (compat : ∀ (st : ColStructure) (t : Str) (a : Nat),
      getF (assignRegion st t a) = if p t then some a else getF st) :
    ∀ (cs : List Cell) (st : ColStructure) (idx cid j k : Nat),
      lastMatchIdx p cs = some j → firstOuterIdx cs = some k →
      getF (regionLoop cid st idx none cs) = some (cid + (j - k)) := by
  intro cs
  induction cs with
  | nil => intro st idx cid j k hj _; exact Option.noConfusion hj
  | cons c cs ih =>
    intro st idx cid j k hj hk
    unfold regionLoop
    simp only [Option.getD_none]
    rw [lastMatchIdx_cons] at hj
    rw [firstOuterIdx_cons] at hk
    by_cases hout : outerRegion (cellRegionKey c)
    · rw [if_pos hout] at hk
      have hk0 : k = 0 := (Option.some.inj hk).symm
      subst hk0
      rw [if_pos hout]
      cases hl : lastMatchIdx p cs with
      | some j' =>
        rw [hl] at hj
        have hj' : j = j' + 1 := (Option.some.inj hj).symm
        subst hj'
        rw [(regionLoop_started getF p compat cs _ (idx + 1) idx cid).1 j' hl]
        have harith : idx + 1 + j' - idx = j' + 1 - 0 := by omega
        rw [harith]
      | none =>
        rw [hl] at hj
        have hp : p (cellRegionKey c) = true := by
          by_cases hp : p (cellRegionKey c)
          · exact hp
          · rw [if_neg (by simp [hp])] at hj
            exact Option.noConfusion hj
        rw [if_pos (by simp [hout, hp])] at hj
        have hj0 : j = 0 := (Option.some.inj hj).symm
        subst hj0
        rw [(regionLoop_started getF p compat cs _ (idx + 1) idx cid).2 hl, compat, if_pos hp]
        have harith : idx - idx = 0 - 0 := by omega
        rw [harith]
    · rw [if_neg hout] at hk
      rw [if_neg hout]
      rcases Option.map_eq_some'.mp hk with ⟨k', hk', rfl⟩
      cases hl : lastMatchIdx p cs with
      | some j' =>
        rw [hl] at hj
        have hj' : j = j' + 1 := (Option.some.inj hj).symm
        subst hj'
        rw [ih st (idx + 1) cid j' k' hl hk']
        have harith : j' + 1 - (k' + 1) = j' - k' := by omega
        rw [harith]
      | none =>
        rw [hl, if_neg (by simp [hout])] at hj
        exact Option.noConfusion hj

theorem updTitle_flags (idx : Nat) (hl : Str) (st : ColStructure) :
    (updTitle idx hl st).has_region_header_row = st.has_region_header_row ∧
    (updTitle idx hl st).uses_row_headers = st.uses_row_headers := by
  unfold updTitle
  split <;> exact ⟨rfl, rfl⟩

theorem updDeveloper_flags (idx : Nat) (hl : Str) (st : ColStructure) :
    (updDeveloper idx hl st).has_region_header_row = st.has_region_header_row ∧
    (updDeveloper idx hl st).uses_row_headers = st.uses_row_headers := by
  unfold updDeveloper
  split <;> exact ⟨rfl, rfl⟩

theorem updPublisher_flags (idx : Nat) (hl : Str) (st : ColStructure) :
    (updPublisher idx hl st).has_region_header_row = st.has_region_header_row ∧
    (updPublisher idx hl st).uses_row_headers = st.uses_row_headers := by
  unfold updPublisher
  split <;> exact ⟨rfl, rfl⟩

theorem updFirstReleased_flags (idx : Nat) (hl : Str) (st : ColStructure) :
    (updFirstReleased idx hl st).has_region_header_row = st.has_region_header_row ∧
    (updFirstReleased idx hl st).uses_row_headers = st.uses_row_headers := by
  unfold updFirstReleased
  split <;> exact ⟨rfl, rfl⟩

theorem updJp_flags (idx : Nat) (hl : Str) (st : ColStructure) :
    (updJp idx hl st).has_region_header_row = st.has_region_header_row ∧
    (updJp idx hl st).uses_row_headers = st.uses_row_headers := by
  unfold updJp
  split <;> exact ⟨rfl, rfl⟩

theorem updNa_flags (idx : Nat) (hl : Str) (st : ColStructure) :
    (updNa idx hl st).has_region_header_row = st.has_region_header_row ∧
    (updNa idx hl st).uses_row_headers = st.uses_row_headers := by
  unfold updNa
  split <;> exact ⟨rfl, rfl⟩

theorem updPal_flags (idx : Nat) (hl : Str) (st : ColStructure) :
    (updPal idx hl st).has_region_header_row = st.has_region_header_row ∧
    (updPal idx hl st).uses_row_headers = st.uses_row_headers := by
  unfold updPal
  split <;> exact ⟨rfl, rfl⟩

theorem updEurope_flags (idx : Nat) (hl : Str) (st : ColStructure) :
    (updEurope idx hl st).has_region_header_row = st.has_region_header_row ∧
    (updEurope idx hl st).uses_row_headers = st.uses_row_headers := by
  unfold updEurope
  split <;> exact ⟨rfl, rfl⟩

theorem updAustralasia_flags (idx : Nat) (hl : Str) (st : ColStructure) :
    (updAustralasia idx hl st).has_region_header_row = st.has_region_header_row ∧
    (updAustralasia idx hl st).uses_row_headers = st.uses_row_headers := by
  unfold updAustralasia
  split <;> exact ⟨rfl, rfl⟩

theorem updBrazil_flags (idx : Nat) (hl : Str) (st : ColStructure) :
    (updBrazil idx hl st).has_region_header_row = st.has_region_header_row ∧
    (updBrazil idx hl st).uses_row_headers = st.uses_row_headers := by
  unfold updBrazil
  split <;> exact ⟨rfl, rfl⟩

theorem updBr_flags (idx : Nat) (hl : Str) (st : ColStructure) :
    (updBr idx hl st).has_region_header_row = st.has_region_header_row ∧
    (updBr idx hl st).uses_row_headers = st.uses_row_headers := by
  unfold updBr
  split <;> exact ⟨rfl, rfl⟩

theorem applyHeader_flags (st : ColStructure) (idx : Nat) (h : Str) :
    (applyHeader st idx h).has_region_header_row = st.has_region_header_row ∧
    (applyHeader st idx h).uses_row_headers = st.uses_row_headers := by
  simp only [applyHeader]
  generalize pyLower (pyStrip h) = hl
  have h4 : ∀ s : ColStructure,
      (updFirstReleased idx hl (updPublisher idx hl (updDeveloper idx hl
        (updTitle idx hl s)))).has_region_header_row = s.has_region_header_row ∧
      (updFirstReleased idx hl (updPublisher idx hl (updDeveloper idx hl
        (updTitle idx hl s)))).uses_row_headers = s.uses_row_headers := by
    intro s
    obtain ⟨a1, a2⟩ := updTitle_flags idx hl s
    obtain ⟨b1, b2⟩ := updDeveloper_flags idx hl (updTitle idx hl s)
    obtain ⟨c1, c2⟩ := updPublisher_flags idx hl (updDeveloper idx hl (updTitle idx hl s))
    obtain ⟨d1, d2⟩ := updFirstReleased_flags idx hl
      (updPublisher idx hl (updDeveloper idx hl (updTitle idx hl s)))
    exact ⟨d1.trans (c1.trans (b1.trans a1)), d2.trans (c2.trans (b2.trans a2))⟩
  split
  · exact h4 st
  · have h7 : ∀ s : ColStructure,
        (updBr idx hl (updBrazil idx hl (updAustralasia idx hl (updEurope idx hl
          (updPal idx hl (updNa idx hl
            (updJp idx hl s))))))).has_region_header_row = s.has_region_header_row ∧
        (updBr idx hl (updBrazil idx hl (updAustralasia idx hl (updEurope idx hl
          (updPal idx hl (updNa idx hl
            (updJp idx hl s))))))).uses_row_headers = s.uses_row_headers := by
      intro s
      obtain ⟨a1, a2⟩ := updJp_flags idx hl s
      obtain ⟨b1, b2⟩ := updNa_flags idx hl (updJp idx hl s)
      obtain ⟨c1, c2⟩ := updPal_flags idx hl (updNa idx hl (updJp idx hl s))
      obtain ⟨d1, d2⟩ := updEurope_flags idx hl (updPal idx hl (updNa idx hl (updJp idx hl s)))
      obtain ⟨e1, e2⟩ := updAustralasia_flags idx hl
        (updEurope idx hl (updPal idx hl (updNa idx hl (updJp idx hl s))))
      obtain ⟨f1, f2⟩ := updBrazil_flags idx hl
        (updAustralasia idx hl (updEurope idx hl (updPal idx hl (updNa idx hl (updJp idx hl s)))))
      obtain ⟨g1, g2⟩ := updBr_flags idx hl
        (updBrazil idx hl (updAustralasia idx hl (updEurope idx hl (updPal idx hl
          (updNa idx hl (updJp idx hl s))))))
      exact ⟨g1.trans (f1.trans (e1.trans (d1.trans (c1.trans (b1.trans a1))))),
        g2.trans (f2.trans (e2.trans (d2.trans (c2.trans (b2.trans a2)))))⟩
    obtain ⟨x1, x2⟩ := h7 (updFirstReleased idx hl (updPublisher idx hl (updDeveloper idx hl
      (updTitle idx hl st))))
    obtain ⟨y1, y2⟩ := h4 st
    exact ⟨x1.trans y1, x2.trans y2⟩

theorem mapHeadersLoop_flags :
    ∀ (hs : List Str) (st : ColStructure) (idx : Nat),
      (mapHeadersLoop st idx hs).has_region_header_row = st.has_region_header_row ∧
      (mapHeadersLoop st idx hs).uses_row_headers = st.uses_row_headers := by
  intro hs
  induction hs with
  | nil => intro st idx; exact ⟨rfl, rfl⟩
  | cons h rest ih =>
    intro st idx
    unfold mapHeadersLoop
    obtain ⟨h1, h2⟩ := ih (applyHeader st idx h) (idx + 1)
    obtain ⟨h3, h4⟩ := applyHeader_flags st idx h
    exact ⟨h1.trans h3, h2.trans h4⟩

theorem assignRegion_flags (st : ColStructure) (t : Str) (a : Nat) :
    (assignRegion st t a).has_region_header_row = st.has_region_header_row ∧
    (assignRegion st t a).uses_row_headers = st.uses_row_headers := by
  simp only [assignRegion]
  split_ifs <;> exact ⟨rfl, rfl⟩

theorem regionLoop_flags :
    ∀ (cs : List Cell) (cid : Nat) (st : ColStructure) (idx : Nat) (rsi : Option Nat),
      (regionLoop cid st idx rsi cs).has_region_header_row = st.has_region_header_row ∧
      (regionLoop cid st idx rsi cs).uses_row_headers = st.uses_row_headers := by
  intro cs
  induction cs with
  | nil => intro cid st idx rsi; exact ⟨rfl, rfl⟩
  | cons c rest ih =>
    intro cid st idx rsi
    unfold regionLoop
    by_cases hout : outerRegion (cellRegionKey c)
    · rw [if_pos hout]
      obtain ⟨h1, h2⟩ := ih cid (assignRegion st (cellRegionKey c)
        (cid + (idx - rsi.getD idx))) (idx + 1) (some (rsi.getD idx))
      obtain ⟨h3, h4⟩ := assignRegion_flags st (cellRegionKey c) (cid + (idx - rsi.getD idx))
      exact ⟨h1.trans h3, h2.trans h4⟩
    · rw [if_neg hout]
      exact ih cid st (idx + 1) rsi

/-- Detection of the region header row is reported faithfully by `analyze`. -/
theorem analyze_hrr_true {rows : List Row}
    (h : (analyze_table_structure rows).has_region_header_row = true) :
    analyzeHrr rows = true := by
  unfold analyze_table_structure at h
  split at h
  · exact Bool.noConfusion h
  · have h2 : (analyzeStage2 rows).has_region_header_row = true := by
      split at h
      · exact h
      · exact h
    by_cases hhrr : analyzeHrr rows
    · exact hhrr
    · exfalso
      unfold analyzeStage2 at h2
      rw [if_neg hhrr] at h2
      unfold analyzeHeadersMapped at h2
      rw [(mapHeadersLoop_flags _ _ _).1] at h2
      simp only at h2
      exact hhrr h2

/-- When a region header row is present, the final structure's region columns
are the ones produced by the region-row loop. -/
theorem analyze_regionLoop_eq (getF : ColStructure → Option Nat)
    (hproj : ∀ st : ColStructure, getF { st with title_col := some 0 } = getF st)
    (r0 r1 : Row) (rest : List Row)
    (hhrr : analyzeHrr (r0 :: r1 :: rest) = true) :
    getF (analyze_table_structure (r0 :: r1 :: rest)) =
      getF (regionLoop (columnsInDataRows r0)
        (analyzeHeadersMapped (r0 :: r1 :: rest)) 0 none r1) := by
  have hs2 : analyzeStage2 (r0 :: r1 :: rest) =
      regionLoop (columnsInDataRows r0) (analyzeHeadersMapped (r0 :: r1 :: rest)) 0 none r1 := by
    unfold analyzeStage2
    rw [if_pos hhrr]
  unfold analyze_table_structure
  rw [if_neg (by simp [List.length_cons])]
  split
  · rw [hproj, hs2]
  · rw [hs2]

/-- C1: under a detected region header row, each region field's column is the
count of header-row columns appearing in data rows before the release-date
block plus the region's offset within the region row; in particular thegiven example table yields jp 3, na 4, pal 5. -/
theorem analyze_region_header_mapping :
    (∀ (r0 r1 : Row) (rest : List Row),
      (analyze_table_structure (r0 :: r1 :: rest)).has_region_header_row = true →
      (∀ j k, lastMatchIdx innerJp r1 = some j → firstOuterIdx r1 = some k →
        (analyze_table_structure (r0 :: r1 :: rest)).jp_col =
          some (columnsInDataRows r0 + (j - k))) ∧
      (∀ j k, lastMatchIdx innerNa r1 = some j → firstOuterIdx r1 = some k →
        (analyze_table_structure (r0 :: r1 :: rest)).na_col =
          some (columnsInDataRows r0 + (j - k))) ∧
      (∀ j k, lastMatchIdx innerPal r1 = some j → firstOuterIdx r1 = some k →
        (analyze_table_structure (r0 :: r1 :: rest)).pal_col =
          some (columnsInDataRows r0 + (j - k))) ∧
      (∀ j k, lastMatchIdx innerEurope r1 = some j → firstOuterIdx r1 = some k →
        (analyze_table_structure (r0 :: r1 :: rest)).europe_col =
          some (columnsInDataRows r0 + (j - k))) ∧
      (∀ j k, lastMatchIdx innerAustralasia r1 = some j → firstOuterIdx r1 = some k →
        (analyze_table_structure (r0 :: r1 :: rest)).australasia_col =
          some (columnsInDataRows r0 + (j - k))) ∧
      (∀ j k, lastMatchIdx innerBrazil r1 = some j → firstOuterIdx r1 = some k →
        (analyze_table_structure (r0 :: r1 :: rest)).brazil_col =
          some (columnsInDataRows r0 + (j - k)))) ∧
    (analyze_table_structure exRegionTable).jp_col = some 3 ∧
    (analyze_table_structure exRegionTable).na_col = some 4 ∧
    (analyze_table_structure exRegionTable).pal_col = some 5 := by
  constructor
  · intro r0 r1 rest hdet
    have hhrr := analyze_hrr_true hdet
    refine ⟨?_, ?_, ?_, ?_, ?_, ?_⟩
    · intro j k hj hk
      exact (analyze_regionLoop_eq (fun st => st.jp_col) (fun _ => rfl) r0 r1 rest hhrr).trans
        (regionLoop_spec (fun st => st.jp_col) innerJp assignRegion_jp r1 _ 0 _ j k hj hk)
    · intro j k hj hk
      exact (analyze_regionLoop_eq (fun st => st.na_col) (fun _ => rfl) r0 r1 rest hhrr).trans
        (regionLoop_spec (fun st => st.na_col) innerNa assignRegion_na r1 _ 0 _ j k hj hk)
    · intro j k hj hk
      exact (analyze_regionLoop_eq (fun st => st.pal_col) (fun _ => rfl) r0 r1 rest hhrr).trans
        (regionLoop_spec (fun st => st.pal_col) innerPal assignRegion_pal r1 _ 0 _ j k hj hk)
    · intro j k hj hk
      exact (analyze_regionLoop_eq (fun st => st.europe_col) (fun _ => rfl) r0 r1 rest
        hhrr).trans
        (regionLoop_spec (fun st => st.europe_col) innerEurope assignRegion_europe r1 _ 0 _
          j k hj hk)
    · intro j k hj hk
      exact (analyze_regionLoop_eq (fun st => st.australasia_col) (fun _ => rfl) r0 r1 rest
        hhrr).trans
        (regionLoop_spec (fun st => st.australasia_col) innerAustralasia
          assignRegion_australasia r1 _ 0 _ j k hj hk)
    · intro j k hj hk
      exact (analyze_regionLoop_eq (fun st => st.brazil_col) (fun _ => rfl) r0 r1 rest
        hhrr).trans
        (regionLoop_spec (fun st => st.brazil_col) innerBrazil assignRegion_brazil r1 _ 0 _
          j k hj hk)
  · exact ⟨by decide, by decide, by decide⟩

/-- C1 witness: the mapping rule applied at the example table. -/
theorem analyze_region_header_mapping_witness :
    (analyze_table_structure (exRow0 :: exRow1 :: [exRow2])).has_region_header_row = true ∧
    lastMatchIdx innerJp exRow1 = some 0 ∧
    lastMatchIdx innerNa exRow1 = some 1 ∧
    lastMatchIdx innerPal exRow1 = some 2 ∧
    firstOuterIdx exRow1 = some 0 ∧
    (analyze_table_structure (exRow0 :: exRow1 :: [exRow2])).jp_col =
      some (columnsInDataRows exRow0 + (0 - 0)) ∧
    (analyze_table_structure (exRow0 :: exRow1 :: [exRow2])).na_col =
      some (columnsInDataRows exRow0 + (1 - 0)) ∧
    (analyze_table_structure (exRow0 :: exRow1 :: [exRow2])).pal_col =
      some (columnsInDataRows exRow0 + (2 - 0)) :=
  ⟨by decide, by decide, by decide, by decide, by decide,
   (analyze_region_header_mapping.1 exRow0 exRow1 [exRow2] (by decide)).1 0 0
     (by decide) (by decide),
   (analyze_region_header_mapping.1 exRow0 exRow1 [exRow2] (by decide)).2.1 1 0
     (by decide) (by decide),
   (analyze_region_header_mapping.1 exRow0 exRow1 [exRow2] (by decide)).2.2.1 2 0
     (by decide) (by decide)⟩

/-!
Claim C7: table location strategy.
-/

theorem strategy2_eq_find? : ∀ ts : List HTable,
    strategy2 ts = (ts.find? fallbackQual).toList := by
  intro ts
  induction ts with
  | nil => rfl
  | cons t rest ih =>
    unfold strategy2
    by_cases h : fallbackQual t
    · rw [if_pos h, List.find?_cons_of_pos _ h]
      rfl
    · rw [if_neg h, List.find?_cons_of_neg _ (by simp [h]), ih]

/-- C7: the primary strategy returns all softwarelist tables with more than
five rows; only when it finds none does the fallback run, returning at most
the first qualifying wikitable. -/
theorem find_game_tables_spec (doc : List HTable) :
    (((doc.filter fun t => t.id == some (str "softwarelist")).filter
        fun t => 5 < t.rows.length) ≠ [] →
      find_game_tables doc =
        (doc.filter fun t => t.id == some (str "softwarelist")).filter
          fun t => 5 < t.rows.length) ∧
    (((doc.filter fun t => t.id == some (str "softwarelist")).filter
        fun t => 5 < t.rows.length) = [] →
      find_game_tables doc = ((doc.filter hasWikitableClass).find? fallbackQual).toList ∧
      (find_game_tables doc).length ≤ 1) := by
  constructor
  · intro hne
    unfold find_game_tables
    rw [if_neg (by simpa [List.isEmpty_iff] using hne)]
  · intro heq
    unfold find_game_tables
    rw [if_pos (by simpa [List.isEmpty_iff] using heq)]
    refine ⟨strategy2_eq_find? _, ?_⟩
    rw [strategy2_eq_find? _]
    cases (doc.filter hasWikitableClass).find? fallbackQual <;> simp

/-- C7 witness: the primary branch applied at a concrete document. -/
theorem find_game_tables_spec_witness :
    ((docPrimary.filter fun t => t.id == some (str "softwarelist")).filter
        fun t => 5 < t.rows.length) ≠ [] ∧
    find_game_tables docPrimary =
      (docPrimary.filter fun t => t.id == some (str "softwarelist")).filter
        fun t => 5 < t.rows.length :=
  ⟨by decide, (find_game_tables_spec docPrimary).1 (by decide)⟩
